import Mathlib

/-!
Verification development for the `thrive` terrain-streaming engine.

The definitions below are a shallow embedding of the Rust sources:

* `src/terrain/terrain_plugin.rs` — the versioned-cache design:
  `TerrainManager`, `terrain_tile_loader`, `terrain_tile_task_dispatch`,
  `terrain_tile_task_complete`, `generate_tile_mesh`, `height_at`, `noise_at`.
* `src/terrain/systems.rs` — the grace-period design:
  `TerrainState`, `queue_and_spawn_tasks_system`, `collect_finished_tasks_system`,
  `garbage_collect_tiles_system`.

Machine `i32` arithmetic is modelled on `Int` with explicit wrapping / saturation
where the Rust code can wrap or saturate; `f32` quantities that only flow through
comparisons and linear arithmetic (times, heights) are modelled on `ℚ`.
Bevy `HashMap`s are modelled as functions into `Option` (for payload maps) or as
key lists (where the length is observed); `Assets` stores are modelled by a
freshness counter plus a liveness predicate; async tasks are modelled by an
oracle `done : IVec2 → Bool` saying which in-flight jobs have produced a result.
-/

namespace Thrive

/-- Signed 2-component integer vector, the grid coordinate key (`IVec2`). -/
structure IVec2 where
  x : Int
  y : Int
deriving DecidableEq, Repr

/-- Smallest `i32` value. -/
def i32Min : Int := -(2 ^ 31)

/-- Largest `i32` value. -/
def i32Max : Int := 2 ^ 31 - 1

/-- Saturate an integer into the `i32` range (Rust `saturating_add` result). -/
def satI32 (n : Int) : Int := max i32Min (min i32Max n)

/-- Wrap an integer into the `i32` range (Rust release-mode wrapping arithmetic). -/
def wrap32 (n : Int) : Int := (n + 2 ^ 31) % 2 ^ 32 - 2 ^ 31

/-- Component-wise saturating addition on grid coordinates
(`spawner.coord.saturating_add(IVec2::new(dx, dz))`). -/
def IVec2.satAdd (a b : IVec2) : IVec2 :=
  ⟨satI32 (a.x + b.x), satI32 (a.y + b.y)⟩

/-- A cached mesh and the version it was built under (`CachedTile`). -/
structure CachedTile where
  meshHandle : Nat
  version    : Nat
deriving DecidableEq, Repr

/-- An active, spawned tile: entity id plus mesh handle (`LoadedTile`). -/
structure LoadedTile where
  entity     : Nat
  meshHandle : Nat
deriving DecidableEq, Repr

/-- An entity that drives tile streaming (`TerrainSpawner`). -/
structure Spawner where
  radius : Nat
  coord  : IVec2
deriving DecidableEq, Repr

/-- Snapshot of the generation settings a dispatched task captures
(`(manager.tile_size, manager.resolution, manager.max_height)`). -/
structure Settings where
  tileSize   : ℚ
  resolution : Nat
  maxHeight  : ℚ
deriving DecidableEq, Repr

/-- Global terrain settings and bookkeeping (`TerrainManager`).

`cache`, `loaded` are the coordinate-keyed hash maps; `pending` is the key list
of the in-flight task map (its payload, the task handle, is abstracted by the
completion oracle passed to `completeStep`); `meshes` is the liveness predicate
of the `Assets<Mesh>` store with `nextHandle` producing fresh handles;
`nextEntity` produces fresh entity ids; `dispatchedJobs` records, in order, the
jobs spawned by the last dispatch pass together with the settings snapshot each
captured. -/
structure Manager where
  tileSize           : ℚ
  resolution         : Nat
  maxHeight          : ℚ
  gridMin            : IVec2
  gridMax            : IVec2
  maxConcurrentTasks : Nat
  cacheVersion       : Nat
  cache              : IVec2 → Option CachedTile
  tilesToLoad        : List IVec2
  pending            : List IVec2
  loaded             : IVec2 → Option LoadedTile
  meshes             : Nat → Bool
  nextHandle         : Nat
  nextEntity         : Nat
  dispatchedJobs     : List (IVec2 × Settings)

/-- Bounds check from `terrain_tile_loader` step 2A: a coordinate is kept only if
it is within the inclusive `grid_min ..= grid_max` box. -/
def inGrid (gmin gmax c : IVec2) : Bool :=
  !(c.x < gmin.x || c.y < gmin.y || c.x > gmax.x || c.y > gmax.y)

/-- Offsets `(dx, dz)` enumerated by the two nested loops
`for dz in -r..=r { for dx in -r..=r { … } }` (outer `dz`, inner `dx`). -/
def offsets (r : Nat) : List (Int × Int) :=
  (List.range (2 * r + 1)).flatMap fun j =>
    (List.range (2 * r + 1)).map fun i => ((i : Int) - r, (j : Int) - r)

/-- In-bounds neighborhood of one spawner, in loop order. -/
def spawnerCoords (gmin gmax : IVec2) (s : Spawner) : List IVec2 :=
  (offsets s.radius).filterMap fun d =>
    let c := s.coord.satAdd ⟨d.1, d.2⟩
    if inGrid gmin gmax c then some c else none

/-- Insert a coordinate at the back unless already present (`HashSet::insert`
keyed dedup). First-occurrence order is one arbitrary representative of the
real `std::collections::HashSet` iteration order, which is randomly seeded per
run; no theorem below relies on this order except where a state's queue order
is quantified over or given explicitly. -/
def insertDedup (l : List IVec2) (c : IVec2) : List IVec2 :=
  if c ∈ l then l else l ++ [c]

/-- The desired-coordinate set of `terrain_tile_loader` step 2A, as a duplicate-free
list: union over all spawners of their clipped neighborhoods. The code's
`HashSet` has no reproducible iteration order (see `insertDedup`); only the
membership and dedup semantics of this list are meaningful. -/
def desiredList (sps : List Spawner) (m : Manager) : List IVec2 :=
  (sps.flatMap (spawnerCoords m.gridMin m.gridMax)).foldl insertDedup []

@[simp] theorem mem_insertDedup {l : List IVec2} {c d : IVec2} :
    d ∈ insertDedup l c ↔ d ∈ l ∨ d = c := by
  unfold insertDedup
  split
  · rename_i h
    constructor
    · exact .inl
    · rintro (h' | rfl) <;> [exact h'; exact h]
  · simp [or_comm]

theorem nodup_insertDedup {l : List IVec2} (h : l.Nodup) (c : IVec2) :
    (insertDedup l c).Nodup := by
  unfold insertDedup
  split
  · exact h
  · rename_i hc
    refine List.Nodup.append h (List.nodup_singleton c) ?_
    intro d hd hd'
    rw [List.mem_singleton] at hd'
    exact hc (hd' ▸ hd)

theorem mem_foldl_insertDedup {l : List IVec2} {acc : List IVec2} {c : IVec2} :
    c ∈ l.foldl insertDedup acc ↔ c ∈ acc ∨ c ∈ l := by
  induction l generalizing acc with
  | nil => simp
  | cons d l ih =>
    simp only [List.foldl_cons, ih, mem_insertDedup, List.mem_cons]
    tauto

theorem nodup_foldl_insertDedup {l acc : List IVec2} (h : acc.Nodup) :
    (l.foldl insertDedup acc).Nodup := by
  induction l generalizing acc with
  | nil => exact h
  | cons d l ih => exact ih (nodup_insertDedup h d)

/-- Membership in the desired list is membership in some spawner's clipped
neighborhood. -/
theorem mem_desiredList {sps : List Spawner} {m : Manager} {c : IVec2} :
    c ∈ desiredList sps m ↔
      ∃ s ∈ sps, c ∈ spawnerCoords m.gridMin m.gridMax s := by
  unfold desiredList
  rw [mem_foldl_insertDedup]
  simp

theorem nodup_desiredList (sps : List Spawner) (m : Manager) :
    (desiredList sps m).Nodup :=
  nodup_foldl_insertDedup List.nodup_nil

/-- Every desired coordinate passes the grid-bounds filter. -/
theorem desired_inGrid {sps : List Spawner} {m : Manager} {c : IVec2}
    (h : c ∈ desiredList sps m) : inGrid m.gridMin m.gridMax c = true := by
  rw [mem_desiredList] at h
  obtain ⟨s, _, hc⟩ := h
  unfold spawnerCoords at hc
  simp only [List.mem_filterMap] at hc
  obtain ⟨d, _, hd⟩ := hc
  by_cases hg : inGrid m.gridMin m.gridMax (s.coord.satAdd ⟨d.1, d.2⟩) = true
  · simp only [hg, if_pos] at hd
    cases hd
    exact hg
  · simp [hg] at hd

/-- A cache entry for `c` exists and matches the live `cache_version`
(`cached.version == manager.cache_version`). -/
def freshCache (m : Manager) (c : IVec2) : Prop :=
  ∃ e, m.cache c = some e ∧ e.version = m.cacheVersion

instance (m : Manager) (c : IVec2) : Decidable (freshCache m c) := by
  unfold freshCache
  cases m.cache c with
  | none => exact .isFalse (by simp)
  | some e => exact decidable_of_iff (e.version = m.cacheVersion) (by simp)

/-- Step 2B of `terrain_tile_loader`: despawn every loaded tile whose coordinate
is not desired (the mesh is retained in the cache). -/
def unload (des : List IVec2) (m : Manager) : Manager :=
  { m with loaded := fun c => if c ∈ des then m.loaded c else none }

/-- One iteration of step 2C of `terrain_tile_loader`, for a desired coordinate
`c` that the loop reaches:

* already loaded → skip;
* fresh cache hit → spawn an entity from the cached mesh and mark loaded;
* stale cache hit → remove the mesh asset and evict the cache entry, then fall
  through to the enqueue check;
* otherwise → push onto `tiles_to_load` unless the coordinate is pending. -/
def resolveOne (m : Manager) (c : IVec2) : Manager :=
  if (m.loaded c).isSome then m
  else
    match m.cache c with
    | some e =>
      if e.version = m.cacheVersion then
        { m with
          loaded := fun c' => if c' = c then some ⟨m.nextEntity, e.meshHandle⟩ else m.loaded c'
          nextEntity := m.nextEntity + 1 }
      else if c ∈ m.pending then
        { m with
          meshes := fun h => if h = e.meshHandle then false else m.meshes h
          cache := fun c' => if c' = c then none else m.cache c' }
      else
        { m with
          meshes := fun h => if h = e.meshHandle then false else m.meshes h
          cache := fun c' => if c' = c then none else m.cache c'
          tilesToLoad := m.tilesToLoad ++ [c] }
    | none =>
      if c ∈ m.pending then m else { m with tilesToLoad := m.tilesToLoad ++ [c] }

/-- The whole `terrain_tile_loader` system: build the desired set, unload
non-desired loaded tiles, clear `tiles_to_load`, then resolve every desired
coordinate in iteration order. -/
def loaderStep (sps : List Spawner) (m : Manager) : Manager :=
  (desiredList sps m).foldl resolveOne { unload (desiredList sps m) m with tilesToLoad := [] }

/-- Squared distance between two grid coordinates in wrapping `i32` arithmetic
(`delta = coord - spawner.coord; d2 = delta.x * delta.x + delta.y * delta.y`). -/
def d2of (s c : IVec2) : Int :=
  let dx := wrap32 (c.x - s.x)
  let dy := wrap32 (c.y - s.y)
  wrap32 (wrap32 (dx * dx) + wrap32 (dy * dy))

/-- Minimum squared distance from `c` to any spawner, starting from `i32::MAX`. -/
def minD2 (sps : List Spawner) (c : IVec2) : Int :=
  sps.foldl (fun acc s => if d2of s.coord c < acc then d2of s.coord c else acc) i32Max

/-- Stable insertion into a list sorted by first component: the new element goes
after every element with a key `≤` its own. -/
def insertByFst (p : Int × IVec2) : List (Int × IVec2) → List (Int × IVec2)
  | [] => [p]
  | q :: qs => if p.1 ≤ q.1 then p :: q :: qs else q :: insertByFst p qs

/-- Stable sort by first component, the observable behavior of
`list.sort_by_key(|&(d2, _)| d2)`. -/
def sortByFst (l : List (Int × IVec2)) : List (Int × IVec2) :=
  l.foldr insertByFst []

/-- The `(distance², coord)` list `terrain_tile_task_dispatch` builds and sorts. -/
def sortedQueue (sps : List Spawner) (m : Manager) : List (Int × IVec2) :=
  sortByFst (m.tilesToLoad.map fun c => (minD2 sps c, c))

/-- The walk over the sorted queue in `terrain_tile_task_dispatch`: stop once
`pending` is at the concurrency limit; skip (but mark spawned) coordinates that
are loaded, freshly cached, or already pending; otherwise register the job. The
second component accumulates `spawned_set` in iteration order. -/
def dispatchLoop : Manager → List IVec2 → List (Int × IVec2) → Manager × List IVec2
  | m, sset, [] => (m, sset)
  | m, sset, p :: rest =>
    if m.maxConcurrentTasks ≤ m.pending.length then (m, sset)
    else if (m.loaded p.2).isSome then dispatchLoop m (sset ++ [p.2]) rest
    else if freshCache m p.2 then dispatchLoop m (sset ++ [p.2]) rest
    else if p.2 ∈ m.pending then dispatchLoop m (sset ++ [p.2]) rest
    else
      dispatchLoop
        { m with
          pending := p.2 :: m.pending
          dispatchedJobs := m.dispatchedJobs ++ [(p.2, ⟨m.tileSize, m.resolution, m.maxHeight⟩)] }
        (sset ++ [p.2]) rest

/-- The whole `terrain_tile_task_dispatch` system; `dispatchedJobs` afterwards
holds exactly this pass's spawned jobs, and `tiles_to_load` retains only the
coordinates that were neither spawned nor skipped. -/
def dispatchStep (sps : List Spawner) (m : Manager) : Manager :=
  let r := dispatchLoop { m with dispatchedJobs := [] } [] (sortedQueue sps m)
  { r.1 with tilesToLoad := r.1.tilesToLoad.filter fun c => !(c ∈ r.2 : Bool) }

/-- The coordinates dispatched by one dispatch pass, in dispatch order. -/
def dispatchOrder (sps : List Spawner) (m : Manager) : List IVec2 :=
  (dispatchStep sps m).dispatchedJobs.map Prod.fst

/-- One drained task of `terrain_tile_task_complete`. A completed task whose
coordinate is already loaded is discarded wholesale; a completed task otherwise
adds a fresh mesh to the asset store, caches it under the tick's
`cache_version` (`ver`), spawns an entity and marks the coordinate loaded; an
unfinished task is put back into `pending`. -/
def completeOne (done : IVec2 → Bool) (ver : Nat) (acc : Manager) (c : IVec2) : Manager :=
  if done c then
    if (acc.loaded c).isSome then acc
    else
      { acc with
        meshes := fun h => if h = acc.nextHandle then true else acc.meshes h
        cache := fun c' => if c' = c then some ⟨acc.nextHandle, ver⟩ else acc.cache c'
        loaded := fun c' =>
          if c' = c then some ⟨acc.nextEntity, acc.nextHandle⟩ else acc.loaded c'
        nextHandle := acc.nextHandle + 1
        nextEntity := acc.nextEntity + 1 }
  else { acc with pending := acc.pending ++ [c] }

/-- The whole `terrain_tile_task_complete` system: drain `pending` and process
every task, given the oracle `done` telling which tasks have a result. -/
def completeStep (done : IVec2 → Bool) (m : Manager) : Manager :=
  m.pending.foldl (completeOne done m.cacheVersion) { m with pending := [] }

section ResolveOneLemmas

variable (m : Manager) (d : IVec2)

theorem resolveOne_pending : (resolveOne m d).pending = m.pending := by
  unfold resolveOne
  repeat' split
  all_goals rfl

theorem resolveOne_cacheVersion : (resolveOne m d).cacheVersion = m.cacheVersion := by
  unfold resolveOne
  repeat' split
  all_goals rfl

theorem resolveOne_gridMin : (resolveOne m d).gridMin = m.gridMin := by
  unfold resolveOne
  repeat' split
  all_goals rfl

theorem resolveOne_gridMax : (resolveOne m d).gridMax = m.gridMax := by
  unfold resolveOne
  repeat' split
  all_goals rfl

theorem resolveOne_maxConcurrentTasks :
    (resolveOne m d).maxConcurrentTasks = m.maxConcurrentTasks := by
  unfold resolveOne
  repeat' split
  all_goals rfl

/-- The loader only evicts: the cache at any coordinate is either unchanged or
emptied. -/
theorem resolveOne_cache (c : IVec2) :
    (resolveOne m d).cache c = m.cache c ∨ (resolveOne m d).cache c = none := by
  unfold resolveOne
  repeat' split
  all_goals try exact .inl rfl
  all_goals by_cases hcd : c = d <;> simp [hcd]

/-- The loader never creates cache freshness. -/
theorem resolveOne_fresh_mono (c : IVec2) (h : freshCache (resolveOne m d) c) :
    freshCache m c := by
  obtain ⟨e, he, hv⟩ := h
  rcases resolveOne_cache m d c with hc | hc
  · exact ⟨e, hc ▸ he, by rw [← resolveOne_cacheVersion m d]; exact hv⟩
  · rw [hc] at he
    cases he

/-- The loader does not touch the loaded map at coordinates other than the one
being resolved (beyond what `unload` already did). -/
theorem resolveOne_loaded_ne (c : IVec2) (h : c ≠ d) :
    (resolveOne m d).loaded c = m.loaded c := by
  unfold resolveOne
  repeat' split
  all_goals simp [h]

/-- The loader loads the resolved coordinate only from a fresh cache hit. -/
theorem resolveOne_loaded_some (h : ((resolveOne m d).loaded d).isSome) :
    (m.loaded d).isSome ∨ freshCache m d := by
  unfold resolveOne at h
  split at h
  · exact .inl h
  · split at h
    · rename_i e hcache
      split at h
      · exact .inr ⟨e, hcache, by assumption⟩
      · split at h <;> simp_all
    · split at h <;> simp_all

/-- Characterization of the enqueue decision: the resolved coordinate is pushed
onto `tiles_to_load` exactly when it is not loaded, not freshly cached, and not
pending; nothing else changes `tiles_to_load`. -/
theorem resolveOne_tilesToLoad :
    (resolveOne m d).tilesToLoad =
      if m.loaded d = none ∧ ¬ freshCache m d ∧ d ∉ m.pending
      then m.tilesToLoad ++ [d] else m.tilesToLoad := by
  unfold resolveOne
  split
  · rename_i hl
    rw [if_neg]
    rintro ⟨h1, -, -⟩
    rw [h1] at hl
    simp at hl
  · rename_i hl
    rw [Option.not_isSome_iff_eq_none] at hl
    split
    · rename_i e hcache
      split
      · rename_i hv
        rw [if_neg]
        rintro ⟨-, hf, -⟩
        exact hf ⟨e, hcache, hv⟩
      · rename_i hv
        have hnf : ¬ freshCache m d := by
          rintro ⟨e', he', hv'⟩
          rw [hcache] at he'
          cases he'
          exact hv hv'
        split
        · rename_i hp
          rw [if_neg]
          rintro ⟨-, -, hnp⟩
          exact hnp hp
        · rename_i hp
          rw [if_pos ⟨hl, hnf, hp⟩]
    · rename_i hcache
      have hnf : ¬ freshCache m d := by
        rintro ⟨e', he', -⟩
        rw [hcache] at he'
        cases he'
      split
      · rename_i hp
        rw [if_neg]
        rintro ⟨-, -, hnp⟩
        exact hnp hp
      · rename_i hp
        rw [if_pos ⟨hl, hnf, hp⟩]

/-- The loader never resurrects a mesh asset: `meshes` only loses entries. -/
theorem resolveOne_meshes_mono (h : Nat) (hm : (resolveOne m d).meshes h = true) :
    m.meshes h = true := by
  unfold resolveOne at hm
  repeat' split at hm
  all_goals try exact hm
  all_goals simp only [] at hm
  all_goals split at hm
  all_goals simp_all

end ResolveOneLemmas

/-- A coordinate is clean in `m` when it is neither loaded, nor pending, nor
freshly cached. -/
def clean (m : Manager) (c : IVec2) : Prop :=
  m.loaded c = none ∧ c ∉ m.pending ∧ ¬ freshCache m c

/-- Resolving any coordinate keeps a clean-except-possibly-pending coordinate
unloaded, and keeps it unfresh. -/
theorem resolveOne_keeps_unloaded (m : Manager) (d c : IVec2)
    (h1 : m.loaded c = none) (h3 : ¬ freshCache m c) :
    (resolveOne m d).loaded c = none ∧ ¬ freshCache (resolveOne m d) c := by
  refine ⟨?_, fun hf => h3 (resolveOne_fresh_mono m d c hf)⟩
  by_cases hcd : c = d
  · subst hcd
    cases h : (resolveOne m c).loaded c with
    | none => rfl
    | some v =>
      rcases resolveOne_loaded_some m c (by rw [h]; rfl) with hs | hf
      · rw [h1] at hs
        cases hs
      · exact absurd hf h3
  · rw [resolveOne_loaded_ne m d c hcd]
    exact h1

section FoldResolve

variable (l : List IVec2) (m : Manager)

theorem foldl_resolveOne_pending :
    (l.foldl resolveOne m).pending = m.pending := by
  induction l generalizing m with
  | nil => rfl
  | cons d l ih => rw [List.foldl_cons, ih, resolveOne_pending]

theorem foldl_resolveOne_cacheVersion :
    (l.foldl resolveOne m).cacheVersion = m.cacheVersion := by
  induction l generalizing m with
  | nil => rfl
  | cons d l ih => rw [List.foldl_cons, ih, resolveOne_cacheVersion]

theorem foldl_resolveOne_fresh_mono (c : IVec2)
    (h : freshCache (l.foldl resolveOne m) c) : freshCache m c := by
  induction l generalizing m with
  | nil => exact h
  | cons d l ih => exact resolveOne_fresh_mono m d c (ih _ h)

theorem foldl_resolveOne_cache_not_mem (c : IVec2) (hc : c ∉ l) :
    (l.foldl resolveOne m).cache c = m.cache c := by
  induction l generalizing m with
  | nil => rfl
  | cons d l ih =>
    rw [List.mem_cons, not_or] at hc
    rw [List.foldl_cons, ih _ hc.2]
    unfold resolveOne
    repeat' split
    all_goals simp [hc.1]

theorem foldl_resolveOne_loaded_not_mem (c : IVec2) (hc : c ∉ l) :
    (l.foldl resolveOne m).loaded c = m.loaded c := by
  induction l generalizing m with
  | nil => rfl
  | cons d l ih =>
    rw [List.mem_cons, not_or] at hc
    rw [List.foldl_cons, ih _ hc.2, resolveOne_loaded_ne _ _ _ hc.1]

theorem foldl_resolveOne_meshes_mono (h : Nat)
    (hm : (l.foldl resolveOne m).meshes h = true) : m.meshes h = true := by
  induction l generalizing m with
  | nil => exact hm
  | cons d l ih => exact resolveOne_meshes_mono m d h (ih _ hm)

theorem foldl_resolveOne_tilesToLoad_mono (c : IVec2) (hc : c ∈ m.tilesToLoad) :
    c ∈ (l.foldl resolveOne m).tilesToLoad := by
  induction l generalizing m with
  | nil => exact hc
  | cons d l ih =>
    refine ih _ ?_
    rw [resolveOne_tilesToLoad]
    split
    · exact List.mem_append_left _ hc
    · exact hc

theorem foldl_resolveOne_tilesToLoad_subset (c : IVec2)
    (hc : c ∈ (l.foldl resolveOne m).tilesToLoad) : c ∈ m.tilesToLoad ∨ c ∈ l := by
  induction l generalizing m with
  | nil => exact .inl hc
  | cons d l ih =>
    rw [List.foldl_cons] at hc
    rcases ih _ hc with h | h
    · rw [resolveOne_tilesToLoad] at h
      split at h
      · rw [List.mem_append, List.mem_singleton] at h
        rcases h with h | rfl
        · exact .inl h
        · exact .inr (List.mem_cons_self _ _)
      · exact .inl h
    · exact .inr (List.mem_cons_of_mem _ h)

/-- Every coordinate that is clean stays unloaded and unfresh through a resolve
pass. -/
theorem foldl_resolveOne_keeps_unloaded (c : IVec2)
    (h1 : m.loaded c = none) (h3 : ¬ freshCache m c) :
    (l.foldl resolveOne m).loaded c = none ∧
      ¬ freshCache (l.foldl resolveOne m) c := by
  induction l generalizing m with
  | nil => exact ⟨h1, h3⟩
  | cons d l ih =>
    obtain ⟨h1', h3'⟩ := resolveOne_keeps_unloaded m d c h1 h3
    exact ih _ h1' h3'

/-- Every coordinate in `tiles_to_load` after a resolve pass is clean: this is
the dedup guard of `terrain_tile_loader` step 2C. -/
theorem foldl_resolveOne_clean
    (hinv : ∀ c ∈ m.tilesToLoad, clean m c) (c : IVec2)
    (hc : c ∈ (l.foldl resolveOne m).tilesToLoad) :
    clean (l.foldl resolveOne m) c := by
  induction l generalizing m with
  | nil => exact hinv c hc
  | cons d l ih =>
    rw [List.foldl_cons] at hc ⊢
    refine ih _ ?_ hc
    intro c' hc'
    rw [resolveOne_tilesToLoad] at hc'
    have hkeep : clean m c' → clean (resolveOne m d) c' := by
      rintro ⟨k1, k2, k3⟩
      obtain ⟨k1', k3'⟩ := resolveOne_keeps_unloaded m d c' k1 k3
      exact ⟨k1', by rw [resolveOne_pending]; exact k2, k3'⟩
    split at hc'
    · rename_i hcond
      rw [List.mem_append, List.mem_singleton] at hc'
      rcases hc' with hc' | hceq
      · exact hkeep (hinv c' hc')
      · obtain ⟨k1', k3'⟩ :=
          resolveOne_keeps_unloaded m d d hcond.1 hcond.2.1
        rw [hceq]
        exact ⟨k1', by rw [resolveOne_pending]; exact hcond.2.2, k3'⟩
    · exact hkeep (hinv c' hc')

end FoldResolve

/-- Resolving a non-loaded coordinate with a stale cache entry evicts the entry,
removes its mesh asset, does not load it, and enqueues it unless pending. -/
theorem resolveOne_stale (m : Manager) (c : IVec2) (e : CachedTile)
    (hload : m.loaded c = none) (hcache : m.cache c = some e)
    (hstale : e.version ≠ m.cacheVersion) :
    (resolveOne m c).cache c = none ∧
    (resolveOne m c).meshes e.meshHandle = false ∧
    (resolveOne m c).loaded c = none ∧
    (c ∉ m.pending → c ∈ (resolveOne m c).tilesToLoad) := by
  unfold resolveOne
  simp only [hload, hcache, Option.isSome_none, Bool.false_eq_true, if_false,
    if_neg hstale]
  split
  · rename_i hp
    exact ⟨by simp, by simp, hload, fun hnp => absurd hp hnp⟩
  · exact ⟨by simp, by simp, hload, fun _ => by simp⟩

/-- The mutual-exclusion invariant: every pending coordinate is unloaded and has
no fresh cache entry. Its first conjunct is the spec's mutual exclusion of
`PendingJob` and `LoadedTile`; the second is what makes it inductive, since the
loader spawns fresh cache hits without consulting `pending`. -/
def MutexInv (m : Manager) : Prop :=
  ∀ c ∈ m.pending, m.loaded c = none ∧ ¬ freshCache m c

instance (m : Manager) : Decidable (MutexInv m) :=
  decidable_of_iff (∀ c ∈ m.pending, m.loaded c = none ∧ ¬ freshCache m c) Iff.rfl

theorem unload_keeps (des : List IVec2) (m : Manager) (c : IVec2)
    (h1 : m.loaded c = none) : (unload des m).loaded c = none := by
  unfold unload
  dsimp only
  split <;> [exact h1; rfl]

theorem loaderStep_pending (sps : List Spawner) (m : Manager) :
    (loaderStep sps m).pending = m.pending := by
  unfold loaderStep
  rw [foldl_resolveOne_pending]
  rfl

theorem loaderStep_cacheVersion (sps : List Spawner) (m : Manager) :
    (loaderStep sps m).cacheVersion = m.cacheVersion := by
  unfold loaderStep
  rw [foldl_resolveOne_cacheVersion]
  rfl

/-- The loader preserves mutual exclusion. -/
theorem loaderStep_mutex (sps : List Spawner) (m : Manager) (h : MutexInv m) :
    MutexInv (loaderStep sps m) := by
  intro c hc
  rw [loaderStep_pending] at hc
  obtain ⟨h1, h2⟩ := h c hc
  unfold loaderStep
  refine foldl_resolveOne_keeps_unloaded _ _ c (unload_keeps _ m c h1) ?_
  intro hf
  exact h2 hf

/-- Everything the loader leaves in `tiles_to_load` is neither loaded, nor
pending, nor freshly cached, at the loader's end. -/
theorem loaderStep_tilesToLoad_clean (sps : List Spawner) (m : Manager) :
    ∀ c ∈ (loaderStep sps m).tilesToLoad, clean (loaderStep sps m) c := by
  intro c hc
  unfold loaderStep at hc ⊢
  exact foldl_resolveOne_clean _ _ (by intro c' hc'; cases hc') c hc

/-- Everything the loader enqueues is desired. -/
theorem loaderStep_tilesToLoad_desired (sps : List Spawner) (m : Manager) :
    ∀ c ∈ (loaderStep sps m).tilesToLoad, c ∈ desiredList sps m := by
  intro c hc
  unfold loaderStep at hc
  rcases foldl_resolveOne_tilesToLoad_subset _ _ c hc with h | h
  · cases h
  · exact h

/-- Main behavior of the loader on a desired, unloaded coordinate whose cache
entry is stale: the entry is evicted, its mesh asset is removed, the coordinate
is not loaded this pass, and it is enqueued for regeneration unless pending. -/
theorem loaderStep_stale (sps : List Spawner) (m : Manager) (c : IVec2)
    (e : CachedTile) (hdes : c ∈ desiredList sps m) (hload : m.loaded c = none)
    (hcache : m.cache c = some e) (hstale : e.version ≠ m.cacheVersion) :
    (loaderStep sps m).cache c = none ∧
    (loaderStep sps m).meshes e.meshHandle = false ∧
    (loaderStep sps m).loaded c = none ∧
    (c ∉ m.pending → c ∈ (loaderStep sps m).tilesToLoad) := by
  obtain ⟨l₁, l₂, hsplit⟩ := List.append_of_mem hdes
  have hnd : (desiredList sps m).Nodup := nodup_desiredList sps m
  rw [hsplit] at hnd
  rcases List.nodup_append.mp hnd with ⟨-, h₂, hdisj⟩
  have hc1 : c ∉ l₁ := fun hmem => hdisj hmem (List.mem_cons_self c l₂)
  have hc2 : c ∉ l₂ := (List.nodup_cons.mp h₂).1
  unfold loaderStep
  rw [hsplit, List.foldl_append, List.foldl_cons]
  have hm2load :
      ({ unload (desiredList sps m) m with tilesToLoad := [] } : Manager).loaded c
        = none := by
    show (if c ∈ desiredList sps m then m.loaded c else none) = none
    rw [if_pos hdes, hload]
  rw [hsplit] at hm2load
  have hA_loaded :
      ((l₁.foldl resolveOne
        { unload (l₁ ++ c :: l₂) m with tilesToLoad := [] }).loaded c) = none := by
    rw [foldl_resolveOne_loaded_not_mem _ _ c hc1]
    exact hm2load
  have hA_cache :
      ((l₁.foldl resolveOne
        { unload (l₁ ++ c :: l₂) m with tilesToLoad := [] }).cache c) = some e := by
    rw [foldl_resolveOne_cache_not_mem _ _ c hc1]
    exact hcache
  have hA_pending :
      ((l₁.foldl resolveOne
        { unload (l₁ ++ c :: l₂) m with tilesToLoad := [] }).pending) = m.pending := by
    rw [foldl_resolveOne_pending]
    rfl
  have hA_ver :
      ((l₁.foldl resolveOne
        { unload (l₁ ++ c :: l₂) m with tilesToLoad := [] }).cacheVersion)
        = m.cacheVersion := by
    rw [foldl_resolveOne_cacheVersion]
    rfl
  obtain ⟨hb1, hb2, hb3, hb4⟩ :=
    resolveOne_stale _ c e hA_loaded hA_cache (by rw [hA_ver]; exact hstale)
  refine ⟨?_, ?_, ?_, ?_⟩
  · rw [foldl_resolveOne_cache_not_mem _ _ c hc2]
    exact hb1
  · cases hmb : (l₂.foldl resolveOne _).meshes e.meshHandle with
    | false => rfl
    | true =>
      have := foldl_resolveOne_meshes_mono l₂ _ e.meshHandle hmb
      rw [hb2] at this
      cases this
  · rw [foldl_resolveOne_loaded_not_mem _ _ c hc2]
    exact hb3
  · intro hnp
    refine foldl_resolveOne_tilesToLoad_mono _ _ c (hb4 ?_)
    rw [hA_pending]
    exact hnp

section DispatchLemmas

/-- Fields the dispatch walk never modifies. -/
theorem dispatchLoop_frames (q : List (Int × IVec2)) (m : Manager) (sset : List IVec2) :
    (dispatchLoop m sset q).1.loaded = m.loaded ∧
    (dispatchLoop m sset q).1.cache = m.cache ∧
    (dispatchLoop m sset q).1.cacheVersion = m.cacheVersion ∧
    (dispatchLoop m sset q).1.tilesToLoad = m.tilesToLoad ∧
    (dispatchLoop m sset q).1.maxConcurrentTasks = m.maxConcurrentTasks ∧
    (dispatchLoop m sset q).1.gridMin = m.gridMin ∧
    (dispatchLoop m sset q).1.gridMax = m.gridMax := by
  induction q generalizing m sset with
  | nil => exact ⟨rfl, rfl, rfl, rfl, rfl, rfl, rfl⟩
  | cons p rest ih =>
    unfold dispatchLoop
    repeat' split
    all_goals first
    | exact ⟨rfl, rfl, rfl, rfl, rfl, rfl, rfl⟩
    | exact ih _ _

/-- The dispatch walk never exceeds the concurrency limit: every insertion is
guarded by the break check. -/
theorem dispatchLoop_bound (q : List (Int × IVec2)) (m : Manager) (sset : List IVec2)
    (h : m.pending.length ≤ m.maxConcurrentTasks) :
    (dispatchLoop m sset q).1.pending.length ≤ m.maxConcurrentTasks := by
  induction q generalizing m sset with
  | nil => exact h
  | cons p rest ih =>
    unfold dispatchLoop
    split
    · exact h
    · rename_i hlt
      rw [not_le] at hlt
      split
      · exact ih _ _ h
      · split
        · exact ih _ _ h
        · split
          · exact ih _ _ h
          · exact ih _ _ (by simpa using hlt)

/-- Membership in the pending map after the dispatch walk: either it was pending
before, or it is a queue coordinate that was clean when inserted. -/
theorem dispatchLoop_pending_mem (q : List (Int × IVec2)) (m : Manager)
    (sset : List IVec2) (c : IVec2) (hc : c ∈ (dispatchLoop m sset q).1.pending) :
    c ∈ m.pending ∨ c ∈ q.map Prod.snd := by
  induction q generalizing m sset with
  | nil => exact .inl hc
  | cons p rest ih =>
    unfold dispatchLoop at hc
    split at hc
    · exact .inl hc
    · split at hc
      · rcases ih _ _ hc with h | h
        · exact .inl h
        · exact .inr (List.mem_cons_of_mem _ h)
      · split at hc
        · rcases ih _ _ hc with h | h
          · exact .inl h
          · exact .inr (List.mem_cons_of_mem _ h)
        · split at hc
          · rcases ih _ _ hc with h | h
            · exact .inl h
            · exact .inr (List.mem_cons_of_mem _ h)
          · rcases ih _ _ hc with h | h
            · rcases List.mem_cons.mp h with hceq | h
              · exact .inr (hceq ▸ List.mem_cons_self _ _)
              · exact .inl h
            · exact .inr (List.mem_cons_of_mem _ h)

/-- The dispatch walk preserves mutual exclusion: a coordinate is inserted into
`pending` only after the loaded / fresh-cache / pending guards all failed. -/
theorem dispatchLoop_mutex (q : List (Int × IVec2)) (m : Manager) (sset : List IVec2)
    (h : MutexInv m) : MutexInv (dispatchLoop m sset q).1 := by
  induction q generalizing m sset with
  | nil => exact h
  | cons p rest ih =>
    unfold dispatchLoop
    split
    · exact h
    · split
      · exact ih _ _ h
      · split
        · exact ih _ _ h
        · split
          · exact ih _ _ h
          · rename_i hload hfresh hpend
            refine ih _ _ ?_
            intro c hc
            rcases List.mem_cons.mp hc with hceq | hcm
            · subst hceq
              exact ⟨Option.not_isSome_iff_eq_none.mp hload, hfresh⟩
            · exact h c hcm

/-- Jobs recorded by the dispatch walk: appended to the accumulator, coordinates
a sublist of the walked queue, each capturing the tick's settings snapshot. -/
theorem dispatchLoop_jobs (q : List (Int × IVec2)) (m : Manager) (sset : List IVec2) :
    ∃ J, (dispatchLoop m sset q).1.dispatchedJobs = m.dispatchedJobs ++ J ∧
      List.Sublist (J.map Prod.fst) (q.map Prod.snd) ∧
      ∀ j ∈ J, j.2 = ⟨m.tileSize, m.resolution, m.maxHeight⟩ := by
  induction q generalizing m sset with
  | nil => exact ⟨[], by simp [dispatchLoop], by simp, by simp⟩
  | cons p rest ih =>
    unfold dispatchLoop
    split
    · exact ⟨[], by simp, by simp, by simp⟩
    · split
      · obtain ⟨J, hJ1, hJ2, hJ3⟩ := ih m (sset ++ [p.2])
        exact ⟨J, hJ1, hJ2.cons _, hJ3⟩
      · split
        · obtain ⟨J, hJ1, hJ2, hJ3⟩ := ih m (sset ++ [p.2])
          exact ⟨J, hJ1, hJ2.cons _, hJ3⟩
        · split
          · obtain ⟨J, hJ1, hJ2, hJ3⟩ := ih m (sset ++ [p.2])
            exact ⟨J, hJ1, hJ2.cons _, hJ3⟩
          · obtain ⟨J, hJ1, hJ2, hJ3⟩ :=
              ih { m with
                pending := p.2 :: m.pending
                dispatchedJobs :=
                  m.dispatchedJobs ++ [(p.2, ⟨m.tileSize, m.resolution, m.maxHeight⟩)] }
                (sset ++ [p.2])
            refine ⟨(p.2, ⟨m.tileSize, m.resolution, m.maxHeight⟩) :: J, ?_, ?_, ?_⟩
            · rw [hJ1]
              simp
            · exact hJ2.cons₂ _
            · intro j hj
              rcases List.mem_cons.mp hj with hj | hj
              · rw [hj]
              · exact hJ3 j hj

end DispatchLemmas

section SortLemmas

theorem mem_insertByFst {p x : Int × IVec2} {l : List (Int × IVec2)} :
    x ∈ insertByFst p l ↔ x = p ∨ x ∈ l := by
  induction l with
  | nil => simp [insertByFst]
  | cons q qs ih =>
    unfold insertByFst
    split
    · simp
    · rw [List.mem_cons, ih, List.mem_cons]
      tauto

theorem pairwise_insertByFst {p : Int × IVec2} {l : List (Int × IVec2)}
    (h : l.Pairwise fun a b => a.1 ≤ b.1) :
    (insertByFst p l).Pairwise fun a b => a.1 ≤ b.1 := by
  induction l with
  | nil => simp [insertByFst]
  | cons q qs ih =>
    rw [List.pairwise_cons] at h
    unfold insertByFst
    split
    · rename_i hle
      rw [List.pairwise_cons]
      refine ⟨?_, List.pairwise_cons.mpr h⟩
      intro b hb
      rcases List.mem_cons.mp hb with hb | hb
      · rw [hb]
        exact hle
      · exact le_trans hle (h.1 b hb)
    · rename_i hgt
      rw [List.pairwise_cons]
      refine ⟨?_, ih h.2⟩
      intro b hb
      rcases mem_insertByFst.mp hb with hb | hb
      · rw [hb]
        exact le_of_not_le hgt
      · exact h.1 b hb

theorem pairwise_sortByFst (l : List (Int × IVec2)) :
    (sortByFst l).Pairwise fun a b => a.1 ≤ b.1 := by
  induction l with
  | nil => simp [sortByFst]
  | cons p qs ih => exact pairwise_insertByFst ih

theorem mem_sortByFst {x : Int × IVec2} {l : List (Int × IVec2)} :
    x ∈ sortByFst l ↔ x ∈ l := by
  induction l with
  | nil => simp [sortByFst]
  | cons p qs ih =>
    show x ∈ insertByFst p (sortByFst qs) ↔ _
    rw [mem_insertByFst, ih, List.mem_cons]

/-- Every pair in the sorted queue carries the squared distance of its own
coordinate as its key. -/
theorem sortedQueue_key {sps : List Spawner} {m : Manager} {p : Int × IVec2}
    (h : p ∈ sortedQueue sps m) : p.1 = minD2 sps p.2 := by
  unfold sortedQueue at h
  rw [mem_sortByFst] at h
  obtain ⟨c, -, hc⟩ := List.mem_map.mp h
  rw [← hc]

theorem sortedQueue_mem_tiles {sps : List Spawner} {m : Manager} {p : Int × IVec2}
    (h : p ∈ sortedQueue sps m) : p.2 ∈ m.tilesToLoad := by
  unfold sortedQueue at h
  rw [mem_sortByFst] at h
  obtain ⟨c, hc, hc2⟩ := List.mem_map.mp h
  rw [← hc2]
  exact hc

end SortLemmas

section DispatchStepLemmas

variable (sps : List Spawner) (m : Manager)

theorem dispatchStep_pending :
    (dispatchStep sps m).pending =
      (dispatchLoop { m with dispatchedJobs := [] } [] (sortedQueue sps m)).1.pending := rfl

/-- Concurrency bound for one dispatch pass. -/
theorem dispatchStep_bound (h : m.pending.length ≤ m.maxConcurrentTasks) :
    (dispatchStep sps m).pending.length ≤ m.maxConcurrentTasks := by
  rw [dispatchStep_pending]
  exact dispatchLoop_bound _ { m with dispatchedJobs := [] } [] h

/-- Dispatch preserves mutual exclusion. -/
theorem dispatchStep_mutex (h : MutexInv m) : MutexInv (dispatchStep sps m) := by
  have h0 : MutexInv { m with dispatchedJobs := ([] : List (IVec2 × Settings)) } := h
  have := dispatchLoop_mutex (sortedQueue sps m) _ [] h0
  intro c hc
  exact this c hc

/-- Dispatch only moves queue coordinates into `pending`. -/
theorem dispatchStep_pending_mem (c : IVec2)
    (hc : c ∈ (dispatchStep sps m).pending) : c ∈ m.pending ∨ c ∈ m.tilesToLoad := by
  rw [dispatchStep_pending] at hc
  rcases dispatchLoop_pending_mem _ _ _ c hc with h | h
  · exact .inl h
  · obtain ⟨p, hp, hp2⟩ := List.mem_map.mp h
    exact .inr (hp2 ▸ sortedQueue_mem_tiles hp)

theorem dispatchLoop_pending_nodup (q : List (Int × IVec2)) (m : Manager)
    (sset : List IVec2) (h : m.pending.Nodup) :
    (dispatchLoop m sset q).1.pending.Nodup := by
  induction q generalizing m sset with
  | nil => exact h
  | cons p rest ih =>
    unfold dispatchLoop
    split
    · exact h
    · split
      · exact ih _ _ h
      · split
        · exact ih _ _ h
        · split
          · exact ih _ _ h
          · rename_i hp
            exact ih _ _ (List.nodup_cons.mpr ⟨hp, h⟩)

theorem dispatchStep_pending_nodup (h : m.pending.Nodup) :
    (dispatchStep sps m).pending.Nodup := by
  rw [dispatchStep_pending]
  exact dispatchLoop_pending_nodup _ _ _ h

/-- The coordinates dispatched in one pass are dispatched in ascending order of
their minimum squared distance to a spawner. -/
theorem dispatchOrder_sorted :
    (dispatchOrder sps m).Pairwise fun a b => minD2 sps a ≤ minD2 sps b := by
  obtain ⟨J, hJ1, hJ2, -⟩ :=
    dispatchLoop_jobs (sortedQueue sps m) { m with dispatchedJobs := [] } []
  have horder : dispatchOrder sps m = J.map Prod.fst := by
    unfold dispatchOrder dispatchStep
    dsimp only
    rw [hJ1]
    simp
  rw [horder]
  have hq : ((sortedQueue sps m).map Prod.snd).Pairwise
      fun a b => minD2 sps a ≤ minD2 sps b := by
    rw [List.pairwise_map]
    have hs := pairwise_sortByFst (m.tilesToLoad.map fun c => (minD2 sps c, c))
    refine List.Pairwise.imp_of_mem ?_ hs
    intro a b ha hb hab
    rw [@sortedQueue_key sps m a ha, @sortedQueue_key sps m b hb] at hab
    exact hab
  exact List.Pairwise.sublist hJ2 hq

end DispatchStepLemmas

section CompleteLemmas

variable (done : IVec2 → Bool) (ver : Nat)

theorem completeOne_pending (acc : Manager) (c : IVec2) :
    (completeOne done ver acc c).pending =
      if done c then acc.pending else acc.pending ++ [c] := by
  unfold completeOne
  repeat' split
  all_goals simp_all

theorem completeOne_cacheVersion (acc : Manager) (c : IVec2) :
    (completeOne done ver acc c).cacheVersion = acc.cacheVersion := by
  unfold completeOne
  repeat' split
  all_goals rfl

theorem completeOne_tilesToLoad (acc : Manager) (c : IVec2) :
    (completeOne done ver acc c).tilesToLoad = acc.tilesToLoad := by
  unfold completeOne
  repeat' split
  all_goals rfl

theorem completeOne_maxConcurrentTasks (acc : Manager) (c : IVec2) :
    (completeOne done ver acc c).maxConcurrentTasks = acc.maxConcurrentTasks := by
  unfold completeOne
  repeat' split
  all_goals rfl

theorem completeOne_cache_ne (acc : Manager) (c c' : IVec2) (h : c' ≠ c) :
    (completeOne done ver acc c).cache c' = acc.cache c' := by
  unfold completeOne
  repeat' split
  all_goals simp [h]

theorem completeOne_loaded_ne (acc : Manager) (c c' : IVec2) (h : c' ≠ c) :
    (completeOne done ver acc c).loaded c' = acc.loaded c' := by
  unfold completeOne
  repeat' split
  all_goals simp [h]

/-- A completed task whose coordinate is already loaded is dropped wholesale:
no cache insertion, no spawn, nothing. -/
theorem completeOne_already_loaded (acc : Manager) (c : IVec2)
    (hd : done c = true) (hl : (acc.loaded c).isSome) :
    completeOne done ver acc c = acc := by
  unfold completeOne
  rw [if_pos hd, if_pos hl]

/-- A completed task for an unloaded coordinate caches the fresh mesh and
spawns. -/
theorem completeOne_new (acc : Manager) (c : IVec2)
    (hd : done c = true) (hl : acc.loaded c = none) :
    (completeOne done ver acc c).cache c = some ⟨acc.nextHandle, ver⟩ ∧
    (completeOne done ver acc c).loaded c = some ⟨acc.nextEntity, acc.nextHandle⟩ ∧
    (completeOne done ver acc c).meshes acc.nextHandle = true ∧
    (completeOne done ver acc c).pending = acc.pending := by
  unfold completeOne
  rw [if_pos hd, if_neg (by rw [hl]; simp)]
  exact ⟨by simp, by simp, by simp, rfl⟩

theorem completeFold_cacheVersion (l : List IVec2) (acc : Manager) :
    (l.foldl (completeOne done ver) acc).cacheVersion = acc.cacheVersion := by
  induction l generalizing acc with
  | nil => rfl
  | cons c l ih => rw [List.foldl_cons, ih, completeOne_cacheVersion]

theorem completeFold_tilesToLoad (l : List IVec2) (acc : Manager) :
    (l.foldl (completeOne done ver) acc).tilesToLoad = acc.tilesToLoad := by
  induction l generalizing acc with
  | nil => rfl
  | cons c l ih => rw [List.foldl_cons, ih, completeOne_tilesToLoad]

theorem completeFold_maxConcurrentTasks (l : List IVec2) (acc : Manager) :
    (l.foldl (completeOne done ver) acc).maxConcurrentTasks
      = acc.maxConcurrentTasks := by
  induction l generalizing acc with
  | nil => rfl
  | cons c l ih => rw [List.foldl_cons, ih, completeOne_maxConcurrentTasks]

theorem completeFold_cache_not_mem (l : List IVec2) (acc : Manager) (c : IVec2)
    (hc : c ∉ l) : (l.foldl (completeOne done ver) acc).cache c = acc.cache c := by
  induction l generalizing acc with
  | nil => rfl
  | cons d l ih =>
    rw [List.mem_cons, not_or] at hc
    rw [List.foldl_cons, ih _ hc.2, completeOne_cache_ne _ _ _ _ _ hc.1]

theorem completeFold_loaded_not_mem (l : List IVec2) (acc : Manager) (c : IVec2)
    (hc : c ∉ l) : (l.foldl (completeOne done ver) acc).loaded c = acc.loaded c := by
  induction l generalizing acc with
  | nil => rfl
  | cons d l ih =>
    rw [List.mem_cons, not_or] at hc
    rw [List.foldl_cons, ih _ hc.2, completeOne_loaded_ne _ _ _ _ _ hc.1]

/-- Pending membership after collection: still pending from before, or an
unfinished drained task. -/
theorem completeFold_pending_mem (l : List IVec2) (acc : Manager) (c : IVec2)
    (hc : c ∈ (l.foldl (completeOne done ver) acc).pending) :
    c ∈ acc.pending ∨ (c ∈ l ∧ done c = false) := by
  induction l generalizing acc with
  | nil => exact .inl hc
  | cons d l ih =>
    rw [List.foldl_cons] at hc
    rcases ih _ hc with h | h
    · rw [completeOne_pending] at h
      split at h
      · exact .inl h
      · rename_i hd
        rw [List.mem_append, List.mem_singleton] at h
        rcases h with h | hceq
        · exact .inl h
        · refine .inr ⟨hceq ▸ List.mem_cons_self _ _, ?_⟩
          rw [hceq]
          exact Bool.not_eq_true _ ▸ (by simpa using hd)
    · exact .inr ⟨List.mem_cons_of_mem _ h.1, h.2⟩

/-- Collection never grows the pending map. -/
theorem completeFold_pending_len (l : List IVec2) (acc : Manager) :
    (l.foldl (completeOne done ver) acc).pending.length
      ≤ acc.pending.length + l.length := by
  induction l generalizing acc with
  | nil => simp
  | cons d l ih =>
    rw [List.foldl_cons]
    refine le_trans (ih _) ?_
    rw [completeOne_pending]
    split <;>
      (simp only [List.length_append, List.length_cons, List.length_nil]; omega)

/-- Collection preserves mutual exclusion and keeps the drained pending keys
duplicate-free: processed along the drained key list, a completed coordinate
leaves `pending` exactly when it enters `loaded`. -/
theorem completeFold_mutex (done : IVec2 → Bool) (ver : Nat) (l : List IVec2)
    (acc : Manager) (hver : acc.cacheVersion = ver)
    (hnd : (acc.pending ++ l).Nodup)
    (hinv : ∀ c ∈ acc.pending ++ l, acc.loaded c = none ∧ ¬ freshCache acc c) :
    MutexInv (l.foldl (completeOne done ver) acc) ∧
      (l.foldl (completeOne done ver) acc).pending.Nodup := by
  induction l generalizing acc with
  | nil =>
    refine ⟨fun c hc => hinv c (by simpa using hc), by simpa using hnd⟩
  | cons c rest ih =>
    rw [List.foldl_cons]
    have hcl : acc.loaded c = none :=
      (hinv c (List.mem_append_right _ (List.mem_cons_self _ _))).1
    rcases List.nodup_append.mp hnd with ⟨hnd1, hnd2, hdisj⟩
    have hcp : c ∉ acc.pending := fun hmem => hdisj hmem (List.mem_cons_self _ _)
    have hcr : c ∉ rest := (List.nodup_cons.mp hnd2).1
    by_cases hd : done c = true
    · have hns : ¬ (acc.loaded c).isSome = true := by rw [hcl]; simp
      unfold completeOne
      rw [if_pos hd, if_neg hns]
      refine ih _ hver ?_ ?_
      · show (acc.pending ++ rest).Nodup
        refine List.Nodup.sublist ?_ hnd
        exact (List.sublist_cons_self c rest).append_left acc.pending
      · intro c' hc'
        have hne : c' ≠ c := by
          rintro rfl
          rcases List.mem_append.mp hc' with h | h
          · exact hcp h
          · exact hcr h
        have hold : c' ∈ acc.pending ++ c :: rest := by
          rcases List.mem_append.mp hc' with h | h
          · exact List.mem_append_left _ h
          · exact List.mem_append_right _ (List.mem_cons_of_mem _ h)
        obtain ⟨ho1, ho2⟩ := hinv c' hold
        constructor
        · show (if c' = c then _ else acc.loaded c') = none
          rw [if_neg hne]
          exact ho1
        · rintro ⟨e, he, hv⟩
          refine ho2 ⟨e, ?_, ?_⟩
          · rw [show ((if c' = c then some (⟨acc.nextHandle, ver⟩ : CachedTile)
                else acc.cache c') = some e) = (acc.cache c' = some e) from
              by rw [if_neg hne]] at he
            exact he
          · exact hver ▸ hv
    · unfold completeOne
      rw [if_neg hd]
      refine ih _ hver ?_ ?_
      · show ((acc.pending ++ [c]) ++ rest).Nodup
        rw [List.append_assoc]
        exact hnd
      · intro c' hc'
        refine hinv c' ?_
        simp only [List.mem_append, List.mem_singleton, List.mem_cons] at hc' ⊢
        tauto

/-- Collection preserves mutual exclusion. -/
theorem completeStep_mutex (done : IVec2 → Bool) (m : Manager)
    (hmutex : MutexInv m) (hnd : m.pending.Nodup) :
    MutexInv (completeStep done m) ∧ (completeStep done m).pending.Nodup := by
  unfold completeStep
  refine completeFold_mutex done m.cacheVersion m.pending _ rfl (by simpa using hnd) ?_
  intro c hc
  exact hmutex c (by simpa using hc)

/-- Collection never grows `pending`. -/
theorem completeStep_pending_len (done : IVec2 → Bool) (m : Manager) :
    (completeStep done m).pending.length ≤ m.pending.length := by
  unfold completeStep
  have := completeFold_pending_len done m.cacheVersion m.pending
    { m with pending := [] }
  simpa using this

/-- Only drained unfinished tasks are pending after collection. -/
theorem completeStep_pending_mem (done : IVec2 → Bool) (m : Manager) (c : IVec2)
    (hc : c ∈ (completeStep done m).pending) : c ∈ m.pending ∧ done c = false := by
  unfold completeStep at hc
  rcases completeFold_pending_mem done m.cacheVersion m.pending _ c hc with h | h
  · cases h
  · exact h

/-- A loaded coordinate after collection was loaded before or was pending. -/
theorem completeStep_loaded_mem (done : IVec2 → Bool) (m : Manager) (c : IVec2)
    (hc : ((completeStep done m).loaded c).isSome) :
    (m.loaded c).isSome ∨ c ∈ m.pending := by
  by_cases hmem : c ∈ m.pending
  · exact .inr hmem
  · unfold completeStep at hc
    rw [completeFold_loaded_not_mem done m.cacheVersion m.pending _ c hmem] at hc
    exact .inl hc

/-- The claim-C10 behavior of `terrain_tile_task_complete`: a completed task
whose coordinate is already loaded is discarded — the cache and the existing
loaded tile at that coordinate are untouched and the pending entry is gone. -/
theorem completeStep_discard (done : IVec2 → Bool) (m : Manager) (c : IVec2)
    (hnd : m.pending.Nodup) (hc : c ∈ m.pending) (hd : done c = true)
    (hl : (m.loaded c).isSome) :
    (completeStep done m).cache c = m.cache c ∧
    (completeStep done m).loaded c = m.loaded c ∧
    c ∉ (completeStep done m).pending := by
  obtain ⟨l₁, l₂, hsplit⟩ := List.append_of_mem hc
  rw [hsplit] at hnd
  rcases List.nodup_append.mp hnd with ⟨-, h₂, hdisj⟩
  have hc1 : c ∉ l₁ := fun hmem => hdisj hmem (List.mem_cons_self c l₂)
  have hc2 : c ∉ l₂ := (List.nodup_cons.mp h₂).1
  have hpend : c ∉ (completeStep done m).pending := by
    intro hmem
    obtain ⟨-, hdone⟩ := completeStep_pending_mem done m c hmem
    rw [hd] at hdone
    cases hdone
  refine ⟨?_, ?_, hpend⟩
  all_goals
    unfold completeStep
    rw [hsplit, List.foldl_append, List.foldl_cons]
  · rw [completeFold_cache_not_mem done _ _ _ c hc2]
    have hacc_loaded :
        ((l₁.foldl (completeOne done m.cacheVersion) { m with pending := [] }).loaded c)
          = m.loaded c := by
      rw [completeFold_loaded_not_mem done _ _ _ c hc1]
    rw [completeOne_already_loaded done m.cacheVersion _ c hd (by rw [hacc_loaded]; exact hl)]
    rw [completeFold_cache_not_mem done _ _ _ c hc1]
  · rw [completeFold_loaded_not_mem done _ _ _ c hc2]
    have hacc_loaded :
        ((l₁.foldl (completeOne done m.cacheVersion) { m with pending := [] }).loaded c)
          = m.loaded c := by
      rw [completeFold_loaded_not_mem done _ _ _ c hc1]
    rw [completeOne_already_loaded done m.cacheVersion _ c hd (by rw [hacc_loaded]; exact hl)]
    rw [completeFold_loaded_not_mem done _ _ _ c hc1]

/-- Normal completion: a completed task for a coordinate not currently loaded
adds a fresh mesh to the cache under the live version, spawns an entity and
marks the coordinate loaded, and drops the pending entry. -/
theorem completeStep_lands (done : IVec2 → Bool) (m : Manager) (c : IVec2)
    (hnd : m.pending.Nodup) (hc : c ∈ m.pending) (hd : done c = true)
    (hl : m.loaded c = none) :
    (∃ h, (completeStep done m).cache c = some ⟨h, m.cacheVersion⟩ ∧
      ∃ e, (completeStep done m).loaded c = some ⟨e, h⟩) ∧
    c ∉ (completeStep done m).pending := by
  obtain ⟨l₁, l₂, hsplit⟩ := List.append_of_mem hc
  rw [hsplit] at hnd
  rcases List.nodup_append.mp hnd with ⟨-, h₂, hdisj⟩
  have hc1 : c ∉ l₁ := fun hmem => hdisj hmem (List.mem_cons_self c l₂)
  have hc2 : c ∉ l₂ := (List.nodup_cons.mp h₂).1
  have hpend : c ∉ (completeStep done m).pending := by
    intro hmem
    obtain ⟨-, hdone⟩ := completeStep_pending_mem done m c hmem
    rw [hd] at hdone
    cases hdone
  refine ⟨?_, hpend⟩
  unfold completeStep
  rw [hsplit, List.foldl_append, List.foldl_cons]
  have hacc_loaded :
      ((l₁.foldl (completeOne done m.cacheVersion) { m with pending := [] }).loaded c)
        = none := by
    rw [completeFold_loaded_not_mem done _ _ _ c hc1]
    exact hl
  obtain ⟨hb1, hb2, -, -⟩ := completeOne_new done m.cacheVersion _ c hd hacc_loaded
  refine ⟨(l₁.foldl (completeOne done m.cacheVersion) { m with pending := [] }).nextHandle,
    ?_, (l₁.foldl (completeOne done m.cacheVersion) { m with pending := [] }).nextEntity, ?_⟩
  · rw [completeFold_cache_not_mem done _ _ _ c hc2]
    exact hb1
  · rw [completeFold_loaded_not_mem done _ _ _ c hc2]
    exact hb2

end CompleteLemmas

/-- Rust `f32::clamp(lo, hi)` on exact arithmetic (defined for `lo ≤ hi`). -/
def clampQ (x lo hi : ℚ) : ℚ := min (max x lo) hi

/-- Transcription of `noise_at(x, y, freq, min, max, seed)`: sample the external
seeded simplex noise at frequency `freq` and remap linearly from `[-1, 1]` to
`[lo, hi]`. The external `simplex_noise_2d_seeded` is the parameter `noise`
taking the scaled position and the seed. -/
def noise_at (noise : ℚ → ℚ → ℚ → ℚ) (x y freq lo hi seed : ℚ) : ℚ :=
  let oldRange : ℚ := 1 - -1
  let newRange : ℚ := hi - lo
  let n := noise (x * freq) (y * freq) seed
  ((n - -1) * newRange) / oldRange + lo

/-- Transcription of `height_at(x, z, max_height)`: three octave layers, each
remapped into its own amplitude band, summed, clamped to `[0, 1]`, scaled by
`max_height`. -/
def height_at (noise : ℚ → ℚ → ℚ → ℚ) (x z maxHeight : ℚ) : ℚ :=
  let flat1 := noise_at noise x z (15/100000) (1/10) (4/10) 1234
  let flat2 := noise_at noise x z (25/100000) (-2/10) (2/10) 2345
  let flat3 := noise_at noise x z (5/10000) (-5/100) (5/100) 4567
  let flat := flat1 + flat2 + flat3
  clampQ flat 0 1 * maxHeight

/-- The vertex count per tile edge used by `generate_tile_mesh`:
`resolution.max(2)` — an in-generation clamp, not a configuration-time check. -/
def vertsPerEdge (resolution : Nat) : Nat := max resolution 2

/-- The height-sample grid of `generate_tile_mesh`, in row-major `(j, i)` loop
order: `world = coord * tile_size + index * step` with
`step = tile_size / (verts_per_edge - 1)`. -/
def tileHeights (noise : ℚ → ℚ → ℚ → ℚ) (coord : IVec2) (s : Settings) : List ℚ :=
  let n := vertsPerEdge s.resolution
  let step := s.tileSize / ((n : ℚ) - 1)
  (List.range n).flatMap fun j =>
    (List.range n).map fun i =>
      height_at noise ((coord.x : ℚ) * s.tileSize + (i : ℚ) * step)
        ((coord.y : ℚ) * s.tileSize + (j : ℚ) * step) s.maxHeight

theorem clampQ_nonneg (x hi : ℚ) (h : 0 ≤ hi) : 0 ≤ clampQ x 0 hi := by
  unfold clampQ
  rcases le_total x 0 with hx | hx
  · rw [max_eq_right hx, min_eq_left h]
  · rw [max_eq_left hx]
    exact le_min hx h |>.trans (min_le_min_left _ le_rfl) |>.trans le_rfl

theorem clampQ_le (x lo hi : ℚ) : clampQ x lo hi ≤ hi := min_le_right _ _

/-- Each octave's value stays inside its amplitude band whenever the raw noise
stays inside `[-1, 1]`. -/
theorem noise_at_mem_band (noise : ℚ → ℚ → ℚ → ℚ) (x y freq lo hi seed : ℚ)
    (hband : lo ≤ hi) (h1 : -1 ≤ noise (x * freq) (y * freq) seed)
    (h2 : noise (x * freq) (y * freq) seed ≤ 1) :
    lo ≤ noise_at noise x y freq lo hi seed ∧
      noise_at noise x y freq lo hi seed ≤ hi := by
  unfold noise_at
  constructor
  · have : 0 ≤ (noise (x * freq) (y * freq) seed - -1) * (hi - lo) / (1 - -1) := by
      apply div_nonneg
      · apply mul_nonneg <;> linarith
      · norm_num
    linarith
  · have hle : (noise (x * freq) (y * freq) seed - -1) * (hi - lo) / (1 - -1)
        ≤ hi - lo := by
      rw [div_le_iff₀ (by norm_num : (0 : ℚ) < 1 - -1)]
      nlinarith
    linarith

/-- The computed height is always inside `[0, maxHeight]` for a nonnegative
`maxHeight`, because the octave sum is clamped to `[0, 1]` before scaling. -/
theorem height_at_bounds (noise : ℚ → ℚ → ℚ → ℚ) (x z maxHeight : ℚ)
    (h : 0 ≤ maxHeight) :
    0 ≤ height_at noise x z maxHeight ∧ height_at noise x z maxHeight ≤ maxHeight := by
  unfold height_at
  constructor
  · exact mul_nonneg (clampQ_nonneg _ 1 (by norm_num)) h
  · have hc := mul_le_mul_of_nonneg_right (clampQ_le
      (noise_at noise x z (15/100000) (1/10) (4/10) 1234 +
        noise_at noise x z (25/100000) (-2/10) (2/10) 2345 +
        noise_at noise x z (5/10000) (-5/100) (5/100) 4567) 0 1) h
    linarith

/-! Model of `src/terrain/systems.rs`, the grace-period design. -/

/-- The fields of `TerrainConfig` this model observes: `despawn_grace_seconds`,
`max_spawns_per_frame`, `max_in_flight_tasks`. -/
structure SConfig where
  graceSeconds : ℚ
  maxSpawns    : Nat
  maxInFlight  : Nat
deriving DecidableEq, Repr

/-- The observed fields of `TerrainConfig::default()`. -/
def SConfig.default : SConfig := ⟨1, 8, 16⟩

/-- Scheduling state of `TerrainState`: the keys of `tiles` and `pending`
(entities abstracted), `last_touched`, plus a log of every despawn performed by
`garbage_collect_tiles_system`, in order. -/
structure SState where
  tiles       : List IVec2
  pending     : List IVec2
  lastTouched : IVec2 → Option ℚ
  despawnLog  : List IVec2

/-- A `TileLoader` with its transform already converted to a center grid
coordinate (`world_to_coord(transform.translation, tile_size)`). -/
structure Loader where
  center : IVec2
  radius : Int
deriving DecidableEq, Repr

/-- One loader's `(-r..=r) × (-r..=r)` unclipped neighborhood in loop order;
empty for a negative radius, wrapping `i32` addition. -/
def sNeighborhood (L : Loader) : List IVec2 :=
  if L.radius < 0 then []
  else (offsets L.radius.toNat).map fun d =>
    ⟨wrap32 (L.center.x + d.1), wrap32 (L.center.y + d.2)⟩

/-- Desired coordinates of `queue_and_spawn_tasks_system`, deduplicated, not
clipped to any bounds. -/
def sDesired (ls : List Loader) : List IVec2 :=
  (ls.flatMap sNeighborhood).foldl insertDedup []

/-- Manhattan distance in wrapping `i32` arithmetic, the sort key of
`queue_and_spawn_tasks_system`. -/
def manh (cc c : IVec2) : Int :=
  wrap32 (wrap32 |wrap32 (cc.x - c.x)| + wrap32 |wrap32 (cc.y - c.y)|)

/-- Minimum Manhattan distance to any loader center (`.min().unwrap_or(0)`). -/
def minManh (centers : List IVec2) (c : IVec2) : Int :=
  match centers.map (fun cc => manh cc c) with
  | [] => 0
  | x :: xs => xs.foldl min x

/-- Keep-alive phase: refresh `last_touched` for every desired coordinate that
is currently a tile or pending. -/
def touchPhase (des : List IVec2) (now : ℚ) (s : SState) : SState :=
  { s with lastTouched := fun c =>
      if c ∈ des ∧ (c ∈ s.tiles ∨ c ∈ s.pending) then some now else s.lastTouched c }

/-- Spawn phase: register each spawned coordinate as pending and touch it. -/
def spawnPhase (toSpawn : List IVec2) (now : ℚ) (s : SState) : SState :=
  { s with
    pending := toSpawn.foldl (fun p c => c :: p) s.pending
    lastTouched := fun c => if c ∈ toSpawn then some now else s.lastTouched c }

/-- Unmark phase: forget `last_touched` for every tile that is out of the
desired set and whose timestamp (`unwrap_or(0.0)`) is older than
`now - despawn_grace_seconds`. -/
def unmarkPhase (cfg : SConfig) (des : List IVec2) (now : ℚ) (s : SState) : SState :=
  { s with lastTouched := fun c =>
      if c ∈ s.tiles ∧ c ∉ des ∧ (s.lastTouched c).getD 0 < now - cfg.graceSeconds
      then none else s.lastTouched c }

/-- The whole `queue_and_spawn_tasks_system`: touch, compute missing tiles,
sort them by distance to the nearest loader, spawn up to
`min(max_in_flight − pending, max_spawns_per_frame)` tasks, then unmark; when
that capacity is zero the system returns early, skipping both spawn and unmark. -/
def queueAndSpawn (cfg : SConfig) (ls : List Loader) (now : ℚ) (s : SState) : SState :=
  let des := sDesired ls
  let s1 := touchPhase des now s
  let missing := des.filter fun c => decide (c ∉ s.tiles ∧ c ∉ s.pending)
  let sortedMissing :=
    (sortByFst (missing.map fun c => (minManh (ls.map (·.center)) c, c))).map Prod.snd
  let capacity := min (cfg.maxInFlight - s.pending.length) cfg.maxSpawns
  if capacity = 0 then s1
  else unmarkPhase cfg des now (spawnPhase (sortedMissing.take capacity) now s1)

/-- The whole `collect_finished_tasks_system`, with `done` telling which pending
tasks have a result: each finished task becomes a tile, leaves `pending`, and is
touched at `now`. -/
def collectStep (done : IVec2 → Bool) (now : ℚ) (s : SState) : SState :=
  let fin := s.pending.filter done
  { s with
    pending := s.pending.filter fun c => !(done c)
    tiles := fin.foldl insertDedup s.tiles
    lastTouched := fun c => if c ∈ fin then some now else s.lastTouched c }

/-- The whole `garbage_collect_tiles_system`: despawn every tile whose
coordinate has no `last_touched` entry, and log the despawn. -/
def gcStep (s : SState) : SState :=
  { s with
    tiles := s.tiles.filter fun c => (s.lastTouched c).isSome
    despawnLog := s.despawnLog ++ s.tiles.filter fun c => (s.lastTouched c).isNone }

/-- One `Update` pass of the grace-period design; the three systems are chained
in this order by `TerrainPlugin`. -/
def sTick (cfg : SConfig) (ls : List Loader) (done : IVec2 → Bool) (now : ℚ)
    (s : SState) : SState :=
  gcStep (collectStep done now (queueAndSpawn cfg ls now s))

/-- Run a sequence of ticks, each with its own time, loaders and completion
oracle. -/
def sRun (cfg : SConfig) (ticks : List (ℚ × List Loader × (IVec2 → Bool)))
    (s : SState) : SState :=
  ticks.foldl (fun s t => sTick cfg t.2.1 t.2.2 t.1 s) s

section SystemsLemmas

theorem length_foldl_cons (l P : List IVec2) :
    (l.foldl (fun p c => c :: p) P).length = P.length + l.length := by
  induction l generalizing P with
  | nil => simp
  | cons d l ih =>
    rw [List.foldl_cons, ih]
    simp only [List.length_cons]
    omega

theorem mem_foldl_cons {l P : List IVec2} {c : IVec2} :
    c ∈ l.foldl (fun p c => c :: p) P ↔ c ∈ P ∨ c ∈ l := by
  induction l generalizing P with
  | nil => simp
  | cons d l ih =>
    rw [List.foldl_cons, ih]
    simp only [List.mem_cons]
    tauto

/-- A coordinate taken from the sorted missing list was missing. -/
theorem mem_take_sorted_map {k : IVec2 → Int} {l : List IVec2} {cap : Nat}
    {c : IVec2}
    (h : c ∈ ((sortByFst (l.map fun c => (k c, c))).map Prod.snd).take cap) :
    c ∈ l := by
  have h1 := List.mem_of_mem_take h
  obtain ⟨p, hp, hp2⟩ := List.mem_map.mp h1
  rw [mem_sortByFst] at hp
  obtain ⟨c', hc', he⟩ := List.mem_map.mp hp
  cases he
  cases hp2
  exact hc'

theorem qs_tiles (cfg : SConfig) (ls : List Loader) (now : ℚ) (s : SState) :
    (queueAndSpawn cfg ls now s).tiles = s.tiles := by
  unfold queueAndSpawn touchPhase spawnPhase unmarkPhase
  dsimp only
  split <;> rfl

theorem qs_despawnLog (cfg : SConfig) (ls : List Loader) (now : ℚ) (s : SState) :
    (queueAndSpawn cfg ls now s).despawnLog = s.despawnLog := by
  unfold queueAndSpawn touchPhase spawnPhase unmarkPhase
  dsimp only
  split <;> rfl

/-- New pending coordinates of the queue-and-spawn pass come from the missing
list: they were tiles in neither `tiles` nor `pending`. -/
theorem qs_pending_mem (cfg : SConfig) (ls : List Loader) (now : ℚ) (s : SState)
    (c : IVec2) (hc : c ∈ (queueAndSpawn cfg ls now s).pending) :
    c ∈ s.pending ∨ (c ∉ s.tiles ∧ c ∉ s.pending) := by
  unfold queueAndSpawn at hc
  simp only at hc
  split at hc
  · exact .inl hc
  · unfold unmarkPhase spawnPhase touchPhase at hc
    simp only at hc
    rw [mem_foldl_cons] at hc
    rcases hc with hc | hc
    · exact .inl hc
    · have hm := mem_take_sorted_map hc
      rw [List.mem_filter] at hm
      have := of_decide_eq_true hm.2
      exact .inr this

/-- Concurrency bound for one queue-and-spawn pass: the spawn count is capped by
`max_in_flight_tasks − pending`, so the pending map never exceeds the limit. -/
theorem qs_pending_len (cfg : SConfig) (ls : List Loader) (now : ℚ) (s : SState)
    (h : s.pending.length ≤ cfg.maxInFlight) :
    (queueAndSpawn cfg ls now s).pending.length ≤ cfg.maxInFlight := by
  unfold queueAndSpawn
  simp only
  split
  · exact h
  · unfold unmarkPhase spawnPhase touchPhase
    simp only
    rw [length_foldl_cons]
    have htake := List.length_take_le
      (min (cfg.maxInFlight - s.pending.length) cfg.maxSpawns)
      ((sortByFst ((sDesired ls).filter
          (fun c => decide (c ∉ s.tiles ∧ c ∉ s.pending))
        |>.map fun c => (minManh (ls.map (·.center)) c, c))).map Prod.snd)
    omega

theorem collect_tiles_mono (done : IVec2 → Bool) (now : ℚ) (s : SState)
    (c : IVec2) (hc : c ∈ s.tiles) : c ∈ (collectStep done now s).tiles := by
  unfold collectStep
  simp only
  rw [mem_foldl_insertDedup]
  exact .inl hc

theorem collect_lastTouched_not_pending (done : IVec2 → Bool) (now : ℚ)
    (s : SState) (c : IVec2) (hc : c ∉ s.pending) :
    (collectStep done now s).lastTouched c = s.lastTouched c := by
  unfold collectStep
  simp only
  rw [if_neg]
  intro hmem
  exact hc (List.mem_of_mem_filter hmem)

theorem collect_pending_len (done : IVec2 → Bool) (now : ℚ) (s : SState) :
    (collectStep done now s).pending.length ≤ s.pending.length :=
  List.length_filter_le _ _

theorem gc_removed_unmarked (s : SState) (c : IVec2) (hc : c ∈ s.tiles)
    (hgone : c ∉ (gcStep s).tiles) : s.lastTouched c = none := by
  unfold gcStep at hgone
  simp only at hgone
  rw [List.mem_filter] at hgone
  cases h : s.lastTouched c with
  | none => rfl
  | some τ =>
    exact absurd ⟨hc, by rw [h]; rfl⟩ hgone

theorem gc_pending (s : SState) : (gcStep s).pending = s.pending := rfl

/-- A tile that is removed from `last_touched` by the unmark phase was out of
the desired set with a timestamp older than `now - despawn_grace_seconds`. -/
theorem qs_lastTouched_none (cfg : SConfig) (ls : List Loader) (now : ℚ)
    (s : SState) (c : IVec2) (hc : c ∈ s.tiles)
    (hn : (queueAndSpawn cfg ls now s).lastTouched c = none) :
    c ∉ sDesired ls ∧
      (s.lastTouched c = none ∨
        (s.lastTouched c).getD 0 < now - cfg.graceSeconds) := by
  unfold queueAndSpawn at hn
  simp only at hn
  split at hn
  · unfold touchPhase at hn
    simp only at hn
    split at hn
    · cases hn
    · rename_i hcond
      rw [not_and_or] at hcond
      rcases hcond with hcond | hcond
      · exact ⟨hcond, .inl hn⟩
      · exact absurd (.inl hc) hcond
  · unfold unmarkPhase spawnPhase touchPhase at hn
    simp only at hn
    have hspawn : (if c ∈ ((sortByFst (((sDesired ls).filter
        (fun c => decide (c ∉ s.tiles ∧ c ∉ s.pending))).map
          fun c => (minManh (ls.map (·.center)) c, c))).map Prod.snd).take
            (min (cfg.maxInFlight - s.pending.length) cfg.maxSpawns)
        then some now
        else if c ∈ sDesired ls ∧ (c ∈ s.tiles ∨ c ∈ s.pending)
          then some now else s.lastTouched c)
        = (if c ∈ sDesired ls ∧ (c ∈ s.tiles ∨ c ∈ s.pending)
          then some now else s.lastTouched c) := by
      rw [if_neg]
      intro hmem
      have hm := mem_take_sorted_map hmem
      rw [List.mem_filter] at hm
      exact (of_decide_eq_true hm.2).1 hc
    rw [hspawn] at hn
    by_cases hA : c ∈ sDesired ls ∧ (c ∈ s.tiles ∨ c ∈ s.pending)
    · rw [if_pos hA] at hn
      split at hn
      · rename_i hcond
        exact absurd hA.1 hcond.2.1
      · cases hn
    · rw [if_neg hA] at hn
      split at hn
      · rename_i hcond
        exact ⟨hcond.2.1, .inr hcond.2.2⟩
      · rw [not_and_or] at hA
        rcases hA with hA | hA
        · exact ⟨hA, .inl hn⟩
        · exact absurd (.inl hc) hA

/-- A tile despawned during one tick was out of the desired set and its
last-seen timestamp was strictly older than `now` minus the grace period. -/
theorem sTick_despawn_only_stale (cfg : SConfig) (ls : List Loader)
    (done : IVec2 → Bool) (now : ℚ) (s : SState) (c : IVec2) (τ : ℚ)
    (ht : c ∈ s.tiles) (hp : c ∉ s.pending) (hτ : s.lastTouched c = some τ)
    (hgone : c ∉ (sTick cfg ls done now s).tiles) :
    c ∉ sDesired ls ∧ τ < now - cfg.graceSeconds := by
  unfold sTick at hgone
  have ht1 : c ∈ (queueAndSpawn cfg ls now s).tiles := by
    rw [qs_tiles]
    exact ht
  have ht2 : c ∈ (collectStep done now (queueAndSpawn cfg ls now s)).tiles :=
    collect_tiles_mono _ _ _ _ ht1
  have hnone := gc_removed_unmarked _ _ ht2 hgone
  have hqsp : c ∉ (queueAndSpawn cfg ls now s).pending := by
    intro hmem
    rcases qs_pending_mem cfg ls now s c hmem with h | h
    · exact hp h
    · exact h.1 ht
  rw [collect_lastTouched_not_pending _ _ _ _ hqsp] at hnone
  obtain ⟨hdes, hval⟩ := qs_lastTouched_none cfg ls now s c ht hnone
  refine ⟨hdes, ?_⟩
  rcases hval with hval | hval
  · rw [hτ] at hval
    cases hval
  · rw [hτ] at hval
    exact hval

/-- Concurrency bound for one whole tick of the grace-period design. -/
theorem sTick_pending_len (cfg : SConfig) (ls : List Loader)
    (done : IVec2 → Bool) (now : ℚ) (s : SState)
    (h : s.pending.length ≤ cfg.maxInFlight) :
    (sTick cfg ls done now s).pending.length ≤ cfg.maxInFlight := by
  unfold sTick
  rw [gc_pending]
  exact le_trans (collect_pending_len _ _ _) (qs_pending_len _ _ _ _ h)

end SystemsLemmas

section BridgeLemmas

variable (sps : List Spawner) (m : Manager)

/-- The loader spawns a previously-unloaded coordinate only from a fresh cache
hit. -/
theorem loaderStep_loaded_new (c : IVec2) (h0 : m.loaded c = none)
    (hs : ((loaderStep sps m).loaded c).isSome) : freshCache m c := by
  by_cases hf : freshCache m c
  · exact hf
  · exfalso
    have h1 : ({ unload (desiredList sps m) m with
        tilesToLoad := ([] : List IVec2) } : Manager).loaded c = none :=
      unload_keeps _ m c h0
    have h2 : ¬ freshCache ({ unload (desiredList sps m) m with
        tilesToLoad := ([] : List IVec2) } : Manager) c := hf
    obtain ⟨h3, -⟩ := foldl_resolveOne_keeps_unloaded (desiredList sps m) _ c h1 h2
    unfold loaderStep at hs
    rw [h3] at hs
    cases hs

/-- A coordinate loaded after the loader pass is desired (anything undesired was
unloaded and never re-loaded). -/
theorem loaderStep_loaded_desired (c : IVec2)
    (hs : ((loaderStep sps m).loaded c).isSome) : c ∈ desiredList sps m := by
  by_contra hdes
  have h1 : ({ unload (desiredList sps m) m with
      tilesToLoad := ([] : List IVec2) } : Manager).loaded c = none := by
    show (if c ∈ desiredList sps m then m.loaded c else none) = none
    rw [if_neg hdes]
  unfold loaderStep at hs
  rw [foldl_resolveOne_loaded_not_mem _ _ c hdes, h1] at hs
  cases hs

theorem dispatchStep_loaded (c : IVec2) :
    (dispatchStep sps m).loaded c = m.loaded c := by
  show (dispatchLoop { m with dispatchedJobs := [] } [] (sortedQueue sps m)).1.loaded c
    = m.loaded c
  rw [(dispatchLoop_frames (sortedQueue sps m) _ []).1]

theorem dispatchStep_tilesToLoad_sub (c : IVec2)
    (hc : c ∈ (dispatchStep sps m).tilesToLoad) : c ∈ m.tilesToLoad := by
  unfold dispatchStep at hc
  simp only at hc
  have h1 := List.mem_of_mem_filter hc
  rw [(dispatchLoop_frames (sortedQueue sps m) _ []).2.2.2.1] at h1
  exact h1

theorem completeStep_tilesToLoad (done : IVec2 → Bool) :
    (completeStep done m).tilesToLoad = m.tilesToLoad := by
  unfold completeStep
  rw [completeFold_tilesToLoad]

/-- The jobs of one dispatch pass all capture the tick's settings snapshot
unvalidated. -/
theorem dispatchStep_jobs_settings (j : IVec2 × Settings)
    (hj : j ∈ (dispatchStep sps m).dispatchedJobs) :
    j.2 = ⟨m.tileSize, m.resolution, m.maxHeight⟩ := by
  obtain ⟨J, hJ1, -, hJ3⟩ :=
    dispatchLoop_jobs (sortedQueue sps m) { m with dispatchedJobs := [] } []
  have : (dispatchStep sps m).dispatchedJobs = J := by
    unfold dispatchStep
    dsimp only
    rw [hJ1]
    simp
  rw [this] at hj
  exact hJ3 j hj

/-- An inverted grid range makes the desired set empty: nothing passes the
bounds filter. -/
theorem desiredList_inverted (hinv : m.gridMax.x < m.gridMin.x) :
    desiredList sps m = [] := by
  rw [List.eq_nil_iff_forall_not_mem]
  intro c hc
  have hg := desired_inGrid hc
  unfold inGrid at hg
  simp only [Bool.not_eq_true', Bool.or_eq_false_iff, decide_eq_false_iff_not,
    not_lt] at hg
  omega

end BridgeLemmas

/-! Claim theorems. -/

/-- The inductive per-tick invariant of the versioned-cache design: mutual
exclusion of pending and loaded (with its cache-freshness side condition) plus
uniqueness of the pending keys (they model `HashMap` keys). -/
def Inv (m : Manager) : Prop := MutexInv m ∧ m.pending.Nodup

instance (m : Manager) : Decidable (Inv m) :=
  decidable_of_iff (MutexInv m ∧ m.pending.Nodup) Iff.rfl

/-- Input state for the claim-C1 witness. -/
def m1W : Manager :=
  { tileSize := 128, resolution := 129, maxHeight := 100,
    gridMin := ⟨-50, -50⟩, gridMax := ⟨50, 50⟩, maxConcurrentTasks := 8,
    cacheVersion := 1,
    cache := fun c => if c = ⟨9, 9⟩ then some ⟨3, 1⟩ else none,
    tilesToLoad := [⟨1, 1⟩], pending := [⟨2, 2⟩], loaded := fun _ => none,
    meshes := fun h => h = 3, nextHandle := 4, nextEntity := 1,
    dispatchedJobs := [] }

/-- C1: for every coordinate at most one of a pending job and a loaded tile
exists at tick boundaries, and a loaded coordinate is never enqueued again:
each of the three systems preserves the mutual-exclusion invariant, and the
loader's gap-resolution step only enqueues coordinates that are neither loaded
nor pending at its end. -/
theorem claim1_mutual_exclusion (sps : List Spawner) (done : IVec2 → Bool)
    (m : Manager) (h : Inv m) :
    Inv (loaderStep sps m) ∧ Inv (dispatchStep sps m) ∧
    Inv (completeStep done m) ∧
    ∀ c ∈ (loaderStep sps m).tilesToLoad,
      (loaderStep sps m).loaded c = none ∧ c ∉ (loaderStep sps m).pending := by
  obtain ⟨hm, hnd⟩ := h
  refine ⟨⟨loaderStep_mutex sps m hm, by rw [loaderStep_pending]; exact hnd⟩,
    ⟨dispatchStep_mutex sps m hm, dispatchStep_pending_nodup sps m hnd⟩,
    completeStep_mutex done m hm hnd, ?_⟩
  intro c hc
  obtain ⟨k1, k2, -⟩ := loaderStep_tilesToLoad_clean sps m c hc
  exact ⟨k1, k2⟩

/-- Witness for C1 at a concrete manager with a pending job, a queued tile and
a fresh cache entry. -/
theorem claim1_mutual_exclusion_witness :
    Inv m1W ∧
      (Inv (loaderStep [⟨1, ⟨0, 0⟩⟩] m1W) ∧
        Inv (dispatchStep [⟨1, ⟨0, 0⟩⟩] m1W) ∧
        Inv (completeStep (fun _ => true) m1W) ∧
        ∀ c ∈ (loaderStep [⟨1, ⟨0, 0⟩⟩] m1W).tilesToLoad,
          (loaderStep [⟨1, ⟨0, 0⟩⟩] m1W).loaded c = none ∧
            c ∉ (loaderStep [⟨1, ⟨0, 0⟩⟩] m1W).pending) :=
  ⟨⟨by decide, by decide⟩,
    claim1_mutual_exclusion [⟨1, ⟨0, 0⟩⟩] (fun _ => true) m1W ⟨by decide, by decide⟩⟩

/-- Input state for the claim-C2 witness: version was bumped to 2, coordinate
`(3,3)` still has a version-1 entry whose mesh asset 7 is alive. -/
def m2W : Manager :=
  { tileSize := 128, resolution := 129, maxHeight := 100,
    gridMin := ⟨-50, -50⟩, gridMax := ⟨50, 50⟩, maxConcurrentTasks := 8,
    cacheVersion := 2,
    cache := fun c => if c = ⟨3, 3⟩ then some ⟨7, 1⟩ else none,
    tilesToLoad := [], pending := [], loaded := fun _ => none,
    meshes := fun h => h = 7, nextHandle := 8, nextEntity := 0,
    dispatchedJobs := [] }

/-- C2: a cache entry is reused only when its version equals the live
`cache_version`; on the next access to a stale entry the loader evicts it
(removing its mesh asset), does not load from it, and enqueues the coordinate
for regeneration (unless a job is already pending). -/
theorem claim2_cache_freshness (sps : List Spawner) (m : Manager) (c : IVec2)
    (e : CachedTile) (hdes : c ∈ desiredList sps m) (hload : m.loaded c = none)
    (hcache : m.cache c = some e) (hstale : e.version ≠ m.cacheVersion) :
    ((loaderStep sps m).cache c = none ∧
     (loaderStep sps m).meshes e.meshHandle = false ∧
     (loaderStep sps m).loaded c = none ∧
     (c ∉ m.pending → c ∈ (loaderStep sps m).tilesToLoad)) ∧
    (∀ c', m.loaded c' = none → (((loaderStep sps m).loaded c').isSome) →
      freshCache m c') :=
  ⟨loaderStep_stale sps m c e hdes hload hcache hstale,
    fun c' h0 hs => loaderStep_loaded_new sps m c' h0 hs⟩

/-- Witness for C2 at a concrete bumped-version manager. -/
theorem claim2_cache_freshness_witness :
    (⟨3, 3⟩ : IVec2) ∈ desiredList [⟨0, ⟨3, 3⟩⟩] m2W ∧
    m2W.cache ⟨3, 3⟩ = some ⟨7, 1⟩ ∧ (1 : Nat) ≠ m2W.cacheVersion ∧
    (((loaderStep [⟨0, ⟨3, 3⟩⟩] m2W).cache ⟨3, 3⟩ = none ∧
      (loaderStep [⟨0, ⟨3, 3⟩⟩] m2W).meshes 7 = false ∧
      (loaderStep [⟨0, ⟨3, 3⟩⟩] m2W).loaded ⟨3, 3⟩ = none ∧
      ((⟨3, 3⟩ : IVec2) ∉ m2W.pending →
        (⟨3, 3⟩ : IVec2) ∈ (loaderStep [⟨0, ⟨3, 3⟩⟩] m2W).tilesToLoad)) ∧
     (∀ c', m2W.loaded c' = none →
       (((loaderStep [⟨0, ⟨3, 3⟩⟩] m2W).loaded c').isSome) → freshCache m2W c')) :=
  ⟨by decide, by decide, by decide,
    claim2_cache_freshness [⟨0, ⟨3, 3⟩⟩] m2W ⟨3, 3⟩ ⟨7, 1⟩
      (by decide) (by decide) (by decide) (by decide)⟩

/-- Input manager for the claim-C3 witness. -/
def m3W : Manager :=
  { tileSize := 128, resolution := 129, maxHeight := 100,
    gridMin := ⟨-50, -50⟩, gridMax := ⟨50, 50⟩, maxConcurrentTasks := 8,
    cacheVersion := 1, cache := fun _ => none,
    tilesToLoad := [⟨0, 0⟩, ⟨0, 1⟩], pending := [⟨1, 1⟩],
    loaded := fun _ => none, meshes := fun _ => false, nextHandle := 0,
    nextEntity := 0, dispatchedJobs := [] }

/-- Input state for the claim-C3 witness on the grace-period design. -/
def s3W : SState :=
  { tiles := [⟨0, 0⟩], pending := [⟨1, 0⟩],
    lastTouched := fun _ => none, despawnLog := [] }

/-- C3: the number of in-flight jobs never exceeds the configured limit, in
both designs: dispatch stops launching at the limit, collection only shrinks
`pending`, the loader never touches it; and one whole tick of the grace-period
design preserves `pending ≤ max_in_flight_tasks`. -/
theorem claim3_concurrency_bound (sps : List Spawner) (done done2 : IVec2 → Bool)
    (m : Manager) (cfg : SConfig) (ls : List Loader) (now : ℚ) (s : SState)
    (hm : m.pending.length ≤ m.maxConcurrentTasks)
    (hs : s.pending.length ≤ cfg.maxInFlight) :
    (dispatchStep sps m).pending.length ≤ m.maxConcurrentTasks ∧
    (completeStep done m).pending.length ≤ m.pending.length ∧
    (loaderStep sps m).pending = m.pending ∧
    (sTick cfg ls done2 now s).pending.length ≤ cfg.maxInFlight :=
  ⟨dispatchStep_bound sps m hm, completeStep_pending_len done m,
    loaderStep_pending sps m, sTick_pending_len cfg ls done2 now s hs⟩

/-- Witness for C3 at concrete states of both designs. -/
theorem claim3_concurrency_bound_witness :
    m3W.pending.length ≤ m3W.maxConcurrentTasks ∧
    s3W.pending.length ≤ SConfig.default.maxInFlight ∧
    ((dispatchStep [⟨0, ⟨0, 0⟩⟩] m3W).pending.length ≤ m3W.maxConcurrentTasks ∧
     (completeStep (fun _ => true) m3W).pending.length ≤ m3W.pending.length ∧
     (loaderStep [⟨0, ⟨0, 0⟩⟩] m3W).pending = m3W.pending ∧
     (sTick SConfig.default [⟨⟨0, 0⟩, 1⟩] (fun _ => false) 1 s3W).pending.length
       ≤ SConfig.default.maxInFlight) :=
  ⟨by decide, by decide,
    claim3_concurrency_bound [⟨0, ⟨0, 0⟩⟩] (fun _ => true) (fun _ => false) m3W
      SConfig.default [⟨⟨0, 0⟩, 1⟩] 1 s3W (by decide) (by decide)⟩

/-- Input manager for the claim-C4 witness. -/
def m4W : Manager :=
  { tileSize := 128, resolution := 129, maxHeight := 100,
    gridMin := ⟨-50, -50⟩, gridMax := ⟨50, 50⟩, maxConcurrentTasks := 8,
    cacheVersion := 1, cache := fun _ => none,
    tilesToLoad := [⟨1, 1⟩], pending := [⟨2, 2⟩], loaded := fun _ => none,
    meshes := fun _ => false, nextHandle := 0, nextEntity := 0,
    dispatchedJobs := [] }

/-- C4: every desired coordinate lies within the inclusive configured bounds,
and consequently in-bounds-ness of the queue, the pending map and the loaded
map is preserved by every step: no out-of-bounds coordinate is ever enqueued,
dispatched, or loaded. -/
theorem claim4_bounds (sps : List Spawner) (done : IVec2 → Bool) (m : Manager)
    (hq : ∀ c ∈ m.tilesToLoad, inGrid m.gridMin m.gridMax c = true)
    (hp : ∀ c ∈ m.pending, inGrid m.gridMin m.gridMax c = true)
    (hl : ∀ c, ((m.loaded c).isSome) → inGrid m.gridMin m.gridMax c = true) :
    (∀ c ∈ desiredList sps m, inGrid m.gridMin m.gridMax c = true) ∧
    ((∀ c ∈ (loaderStep sps m).tilesToLoad, inGrid m.gridMin m.gridMax c = true) ∧
     (∀ c ∈ (loaderStep sps m).pending, inGrid m.gridMin m.gridMax c = true) ∧
     (∀ c, (((loaderStep sps m).loaded c).isSome) →
       inGrid m.gridMin m.gridMax c = true)) ∧
    ((∀ c ∈ (dispatchStep sps m).tilesToLoad, inGrid m.gridMin m.gridMax c = true) ∧
     (∀ c ∈ (dispatchStep sps m).pending, inGrid m.gridMin m.gridMax c = true) ∧
     (∀ c, (((dispatchStep sps m).loaded c).isSome) →
       inGrid m.gridMin m.gridMax c = true)) ∧
    ((∀ c ∈ (completeStep done m).tilesToLoad, inGrid m.gridMin m.gridMax c = true) ∧
     (∀ c ∈ (completeStep done m).pending, inGrid m.gridMin m.gridMax c = true) ∧
     (∀ c, (((completeStep done m).loaded c).isSome) →
       inGrid m.gridMin m.gridMax c = true)) := by
  refine ⟨fun c hc => desired_inGrid hc, ⟨?_, ?_, ?_⟩, ⟨?_, ?_, ?_⟩, ⟨?_, ?_, ?_⟩⟩
  · intro c hc
    exact desired_inGrid (loaderStep_tilesToLoad_desired sps m c hc)
  · intro c hc
    rw [loaderStep_pending] at hc
    exact hp c hc
  · intro c hc
    exact desired_inGrid (loaderStep_loaded_desired sps m c hc)
  · intro c hc
    exact hq c (dispatchStep_tilesToLoad_sub sps m c hc)
  · intro c hc
    rcases dispatchStep_pending_mem sps m c hc with h | h
    · exact hp c h
    · exact hq c h
  · intro c hc
    rw [dispatchStep_loaded] at hc
    exact hl c hc
  · intro c hc
    rw [completeStep_tilesToLoad] at hc
    exact hq c hc
  · intro c hc
    exact hp c (completeStep_pending_mem done m c hc).1
  · intro c hc
    rcases completeStep_loaded_mem done m c hc with h | h
    · exact hl c h
    · exact hp c h

/-- Witness for C4 at a concrete in-bounds manager. -/
theorem claim4_bounds_witness :
    (∀ c ∈ m4W.tilesToLoad, inGrid m4W.gridMin m4W.gridMax c = true) ∧
    (∀ c ∈ m4W.pending, inGrid m4W.gridMin m4W.gridMax c = true) ∧
    (∀ c, ((m4W.loaded c).isSome) → inGrid m4W.gridMin m4W.gridMax c = true) ∧
    (∀ c ∈ desiredList [⟨1, ⟨0, 0⟩⟩] m4W, inGrid m4W.gridMin m4W.gridMax c = true) :=
  have hl : ∀ c, ((m4W.loaded c).isSome) → inGrid m4W.gridMin m4W.gridMax c = true :=
    fun c hc => absurd hc (by simp [m4W])
  ⟨by decide, by decide, hl,
    (claim4_bounds [⟨1, ⟨0, 0⟩⟩] (fun _ => true) m4W (by decide) (by decide) hl).1⟩

/-- Input manager for the claim-C5 example: queued coordinates
`(5,5), (1,1), (3,0)` and a concurrency limit of 2. -/
def m5W : Manager :=
  { tileSize := 128, resolution := 129, maxHeight := 100,
    gridMin := ⟨-50, -50⟩, gridMax := ⟨50, 50⟩, maxConcurrentTasks := 2,
    cacheVersion := 1, cache := fun _ => none,
    tilesToLoad := [⟨5, 5⟩, ⟨1, 1⟩, ⟨3, 0⟩], pending := [],
    loaded := fun _ => none, meshes := fun _ => false, nextHandle := 0,
    nextEntity := 0, dispatchedJobs := [] }

/-- A queue holding the two tied coordinates `(1,0)` and `(0,1)` (both at
squared distance 1 from the spawner at the origin) in one order. -/
def m5A : Manager :=
  { tileSize := 128, resolution := 129, maxHeight := 100,
    gridMin := ⟨-50, -50⟩, gridMax := ⟨50, 50⟩, maxConcurrentTasks := 2,
    cacheVersion := 1, cache := fun _ => none,
    tilesToLoad := [⟨1, 0⟩, ⟨0, 1⟩], pending := [],
    loaded := fun _ => none, meshes := fun _ => false, nextHandle := 0,
    nextEntity := 0, dispatchedJobs := [] }

/-- The same scheduler state as `m5A` except that the queue holds the two tied
coordinates in the opposite order — the two states differ only in the
iteration order of the `tiles_to_load` set, which the code takes from a
freshly created, randomly seeded `std::collections::HashSet` each loader run. -/
def m5B : Manager :=
  { m5A with tilesToLoad := [⟨0, 1⟩, ⟨1, 0⟩] }

/-- Counterexample to C5's determinism conjunct: the stable `sort_by_key`
breaks ties by the queue's iteration order, so two states whose queues hold
the same set of equidistant coordinates dispatch them in different orders.
Since `tiles_to_load` is filled by iterating a per-run randomly seeded
`HashSet`, tie-break order is not a function of the scheduler's abstract state
and behavior on ties is not reproducible. -/
theorem claim5_counterexample :
    List.Perm m5A.tilesToLoad m5B.tilesToLoad ∧
    minD2 [⟨0, ⟨0, 0⟩⟩] ⟨1, 0⟩ = minD2 [⟨0, ⟨0, 0⟩⟩] ⟨0, 1⟩ ∧
    dispatchOrder [⟨0, ⟨0, 0⟩⟩] m5A = [⟨1, 0⟩, ⟨0, 1⟩] ∧
    dispatchOrder [⟨0, ⟨0, 0⟩⟩] m5B = [⟨0, 1⟩, ⟨1, 0⟩] ∧
    dispatchOrder [⟨0, ⟨0, 0⟩⟩] m5A ≠ dispatchOrder [⟨0, ⟨0, 0⟩⟩] m5B := by
  decide

/-- C5 as amended: the dispatch pass launches jobs in ascending order of the
minimum squared grid distance to any spawner, and with one spawner at `(0,0)`,
the queue `(5,5), (1,1), (3,0)` and limit 2, exactly `(1,1)` then `(3,0)` are
dispatched (distances 2 and 9 against 50) and `(5,5)` stays queued. Ties are
broken by the stable sort according to the queue's iteration order, which the
program draws from a randomly seeded hash set — they are NOT broken
deterministically (see `claim5_counterexample`). -/
theorem claim5_priority_order (sps : List Spawner) (m : Manager) :
    ((dispatchOrder sps m).Pairwise fun a b => minD2 sps a ≤ minD2 sps b) ∧
    dispatchOrder [⟨0, ⟨0, 0⟩⟩] m5W = [⟨1, 1⟩, ⟨3, 0⟩] ∧
    (dispatchStep [⟨0, ⟨0, 0⟩⟩] m5W).tilesToLoad = [⟨5, 5⟩] ∧
    minD2 [⟨0, ⟨0, 0⟩⟩] ⟨1, 1⟩ = 2 ∧ minD2 [⟨0, ⟨0, 0⟩⟩] ⟨3, 0⟩ = 9 ∧
    minD2 [⟨0, ⟨0, 0⟩⟩] ⟨5, 5⟩ = 50 :=
  ⟨dispatchOrder_sorted sps m, by decide, by decide, by decide, by decide,
    by decide⟩

/-- Input manager for the claim-C6 counterexample: one pending job at `(7,7)`,
no spawners, so the desired set is empty. -/
def m6C : Manager :=
  { tileSize := 128, resolution := 129, maxHeight := 100,
    gridMin := ⟨-50, -50⟩, gridMax := ⟨50, 50⟩, maxConcurrentTasks := 8,
    cacheVersion := 1, cache := fun _ => none,
    tilesToLoad := [], pending := [⟨7, 7⟩], loaded := fun _ => none,
    meshes := fun _ => false, nextHandle := 0, nextEntity := 0,
    dispatchedJobs := [] }

/-- Counterexample to C6: the collection step never consults the desired set.
With no spawners, `(7,7)` is not desired, yet collecting its completed job
spawns a live tile entity (`nextEntity` advances) and marks it Loaded. -/
theorem claim6_counterexample :
    desiredList [] m6C = [] ∧
    m6C.pending = [⟨7, 7⟩] ∧
    (((completeStep (fun _ => true) m6C).loaded ⟨7, 7⟩).isSome = true) ∧
    (completeStep (fun _ => true) m6C).nextEntity = m6C.nextEntity + 1 := by
  decide

/-- C6 as amended: when a pending job completes, the result lands in the cache
under the live version and the pending entry is discarded, but a live
representation IS spawned and the coordinate marked Loaded even when it is no
longer desired; the tile is only removed by the unload pass of a later loader
run if it is still undesired then. -/
theorem claim6_completion_spawns (done : IVec2 → Bool) (m : Manager)
    (sps : List Spawner) (c : IVec2) (hnd : m.pending.Nodup)
    (hc : c ∈ m.pending) (hd : done c = true) (hl : m.loaded c = none) :
    ((∃ h, (completeStep done m).cache c = some ⟨h, m.cacheVersion⟩ ∧
       ∃ e, (completeStep done m).loaded c = some ⟨e, h⟩) ∧
     c ∉ (completeStep done m).pending) ∧
    (c ∉ desiredList sps (completeStep done m) →
      (loaderStep sps (completeStep done m)).loaded c = none) := by
  refine ⟨completeStep_lands done m c hnd hc hd hl, fun hdes => ?_⟩
  cases h : (loaderStep sps (completeStep done m)).loaded c with
  | none => rfl
  | some v =>
    exact absurd (loaderStep_loaded_desired sps (completeStep done m) c
      (by rw [h]; rfl)) hdes

/-- Witness for the amended C6 at the concrete undesired pending job. -/
theorem claim6_completion_spawns_witness :
    m6C.pending.Nodup ∧ (⟨7, 7⟩ : IVec2) ∈ m6C.pending ∧
    m6C.loaded ⟨7, 7⟩ = none ∧
    (((∃ h, (completeStep (fun _ => true) m6C).cache ⟨7, 7⟩
        = some ⟨h, m6C.cacheVersion⟩ ∧
       ∃ e, (completeStep (fun _ => true) m6C).loaded ⟨7, 7⟩ = some ⟨e, h⟩) ∧
      (⟨7, 7⟩ : IVec2) ∉ (completeStep (fun _ => true) m6C).pending) ∧
     ((⟨7, 7⟩ : IVec2) ∉ desiredList [] (completeStep (fun _ => true) m6C) →
       (loaderStep [] (completeStep (fun _ => true) m6C)).loaded ⟨7, 7⟩ = none)) :=
  ⟨by decide, by decide, by decide,
    claim6_completion_spawns (fun _ => true) m6C [] ⟨7, 7⟩
      (by decide) (by decide) (by decide) (by decide)⟩

/-- The tracked tile of the claim-C7 scenarios. -/
def tileC : IVec2 := ⟨0, 0⟩

/-- Initial state of the claim-C7 scenarios: `tileC` is loaded and was last
desired at time 0 (it leaves the desired set at T = 0). -/
def graceS0 : SState :=
  { tiles := [tileC], pending := [],
    lastTouched := fun c => if c = tileC then some 0 else none, despawnLog := [] }

/-- A loader sitting on `tileC` with radius 0, so that desired = `{tileC}`. -/
def loaderC : Loader := ⟨tileC, 0⟩

/-- No task ever completes in the claim-C7 scenarios. -/
def noneDone : IVec2 → Bool := fun _ => false

/-- Claim-C7 scenario A: the tile leaves `desired` at T = 0 and re-enters at
T + 0.5 (then stays); ticks at 0.25, 0.49, 0.5, 1, 2 seconds. -/
def graceTraceA : List (ℚ × List Loader × (IVec2 → Bool)) :=
  [(1/4, [], noneDone), (49/100, [], noneDone), (1/2, [loaderC], noneDone),
   (1, [loaderC], noneDone), (2, [loaderC], noneDone)]

/-- Claim-C7 scenario B: the tile leaves `desired` at T = 0 and never
re-enters; ticks at 0.5, 0.9, 1.5, 2.5 seconds. -/
def graceTraceB : List (ℚ × List Loader × (IVec2 → Bool)) :=
  [(1/2, [], noneDone), (9/10, [], noneDone), (3/2, [], noneDone),
   (5/2, [], noneDone)]

/-- C7: under the grace-period policy a loaded tile is removed only when it is
out of the desired set and its last-seen timestamp is older than now minus the
grace duration; with the default 1.0 s grace, a tile that leaves `desired` at
T = 0 and re-enters at T + 0.5 is never despawned, while one that stays absent
past T + 1.0 is despawned exactly once. -/
theorem claim7_grace_period (cfg : SConfig) (ls : List Loader)
    (done : IVec2 → Bool) (now : ℚ) (s : SState) (c : IVec2) (τ : ℚ)
    (ht : c ∈ s.tiles) (hp : c ∉ s.pending) (hτ : s.lastTouched c = some τ)
    (hgone : c ∉ (sTick cfg ls done now s).tiles) :
    (c ∉ sDesired ls ∧ τ < now - cfg.graceSeconds) ∧
    ((sRun SConfig.default graceTraceA graceS0).despawnLog = [] ∧
      tileC ∈ (sRun SConfig.default graceTraceA graceS0).tiles) ∧
    ((sRun SConfig.default graceTraceB graceS0).despawnLog = [tileC] ∧
      (sRun SConfig.default graceTraceB graceS0).tiles = []) :=
  ⟨sTick_despawn_only_stale cfg ls done now s c τ ht hp hτ hgone,
    by with_unfolding_all decide, by with_unfolding_all decide⟩

/-- Witness for C7: a tick at time 5 with an empty desired set despawns the
tile whose timestamp is 0, which is indeed older than `5 - 1`. -/
theorem claim7_grace_period_witness :
    tileC ∈ graceS0.tiles ∧ tileC ∉ graceS0.pending ∧
    graceS0.lastTouched tileC = some 0 ∧
    tileC ∉ (sTick SConfig.default [] noneDone 5 graceS0).tiles ∧
    ((tileC ∉ sDesired [] ∧ (0 : ℚ) < 5 - SConfig.default.graceSeconds) ∧
     ((sRun SConfig.default graceTraceA graceS0).despawnLog = [] ∧
       tileC ∈ (sRun SConfig.default graceTraceA graceS0).tiles) ∧
     ((sRun SConfig.default graceTraceB graceS0).despawnLog = [tileC] ∧
       (sRun SConfig.default graceTraceB graceS0).tiles = [])) :=
  ⟨by decide, by decide, by decide, by with_unfolding_all decide,
    claim7_grace_period SConfig.default [] noneDone 5 graceS0 tileC 0
      (by decide) (by decide) (by decide) (by with_unfolding_all decide)⟩

/-- A constant noise function used by the claim-C8 witness. -/
def constNoise : ℚ → ℚ → ℚ → ℚ := fun _ _ _ => 0

/-- C8: the total of the octave sum is clamped to `[0, 1]` before scaling, so
for any noise function and any nonnegative `max_height` the returned height
lies in `[0, max_height]`; and each octave stays inside its own amplitude band
whenever the raw noise stays inside `[-1, 1]`. -/
theorem claim8_height_bounds (noise : ℚ → ℚ → ℚ → ℚ)
    (x z mh xf yf freq lo hi seed : ℚ) (hmh : 0 ≤ mh) (hband : lo ≤ hi)
    (hn1 : -1 ≤ noise (xf * freq) (yf * freq) seed)
    (hn2 : noise (xf * freq) (yf * freq) seed ≤ 1) :
    (0 ≤ height_at noise x z mh ∧ height_at noise x z mh ≤ mh) ∧
    (lo ≤ noise_at noise xf yf freq lo hi seed ∧
      noise_at noise xf yf freq lo hi seed ≤ hi) :=
  ⟨height_at_bounds noise x z mh hmh,
    noise_at_mem_band noise xf yf freq lo hi seed hband hn1 hn2⟩

/-- Witness for C8 with the constant-zero noise, `max_height = 100`, and the
first octave's band `[0.1, 0.4]`. -/
theorem claim8_height_bounds_witness :
    (0 : ℚ) ≤ 100 ∧ (1/10 : ℚ) ≤ 4/10 ∧
    (-1 ≤ constNoise (3 * (15/100000)) (4 * (15/100000)) 1234) ∧
    (constNoise (3 * (15/100000)) (4 * (15/100000)) 1234 ≤ 1) ∧
    ((0 ≤ height_at constNoise 3 4 100 ∧ height_at constNoise 3 4 100 ≤ 100) ∧
     (1/10 ≤ noise_at constNoise 3 4 (15/100000) (1/10) (4/10) 1234 ∧
       noise_at constNoise 3 4 (15/100000) (1/10) (4/10) 1234 ≤ 4/10)) :=
  ⟨by norm_num, by norm_num, by norm_num [constNoise], by norm_num [constNoise],
    claim8_height_bounds constNoise 3 4 100 3 4 (15/100000) (1/10) (4/10) 1234
      (by norm_num) (by norm_num) (by norm_num [constNoise])
      (by norm_num [constNoise])⟩

/-- Input manager for the claim-C9 counterexample: the configured resolution is
0, below the documented minimum of 2, and a tile is queued. -/
def m9C : Manager :=
  { tileSize := 1, resolution := 0, maxHeight := 1,
    gridMin := ⟨-50, -50⟩, gridMax := ⟨50, 50⟩, maxConcurrentTasks := 8,
    cacheVersion := 1, cache := fun _ => none,
    tilesToLoad := [⟨0, 0⟩], pending := [], loaded := fun _ => none,
    meshes := fun _ => false, nextHandle := 0, nextEntity := 0,
    dispatchedJobs := [] }

/-- Counterexample to C9: nothing rejects an invalid configuration — with
`resolution = 0 < 2` the dispatch pass happily launches a generation job
capturing that resolution, so generation IS invoked with an invalid
configuration. -/
theorem claim9_counterexample :
    m9C.resolution < 2 ∧
    (dispatchStep [] m9C).dispatchedJobs = [(⟨0, 0⟩, ⟨1, 0, 1⟩)] := by
  with_unfolding_all decide

/-- Input manager for the claim-C9 amended witness: inverted grid range. -/
def m9W : Manager :=
  { tileSize := 1, resolution := 0, maxHeight := 1,
    gridMin := ⟨1, 0⟩, gridMax := ⟨0, 0⟩, maxConcurrentTasks := 8,
    cacheVersion := 1, cache := fun _ => none,
    tilesToLoad := [], pending := [], loaded := fun _ => none,
    meshes := fun _ => false, nextHandle := 0, nextEntity := 0,
    dispatchedJobs := [] }

/-- C9 as amended: configuration errors are not rejected at configuration time.
Instead, dispatched jobs capture the configured resolution unvalidated,
`generate_tile_mesh` clamps the vertex count to at least 2 mid-generation
(`resolution.max(2)`), and an inverted grid range silently yields an empty
desired set rather than an error. -/
theorem claim9_no_validation (sps : List Spawner) (m : Manager) (res : Nat)
    (hinv : m.gridMax.x < m.gridMin.x) :
    2 ≤ vertsPerEdge res ∧ vertsPerEdge 0 = 2 ∧
    desiredList sps m = [] ∧
    (∀ j ∈ (dispatchStep sps m).dispatchedJobs,
      j.2 = ⟨m.tileSize, m.resolution, m.maxHeight⟩) :=
  ⟨Nat.le_max_right res 2, rfl, desiredList_inverted sps m hinv,
    fun j hj => dispatchStep_jobs_settings sps m j hj⟩

/-- Witness for the amended C9 at the inverted-range manager. -/
theorem claim9_no_validation_witness :
    m9W.gridMax.x < m9W.gridMin.x ∧
    (2 ≤ vertsPerEdge 0 ∧ vertsPerEdge 0 = 2 ∧
     desiredList [⟨1, ⟨0, 0⟩⟩] m9W = [] ∧
     (∀ j ∈ (dispatchStep [⟨1, ⟨0, 0⟩⟩] m9W).dispatchedJobs,
       j.2 = ⟨m9W.tileSize, m9W.resolution, m9W.maxHeight⟩)) :=
  ⟨by decide, claim9_no_validation [⟨1, ⟨0, 0⟩⟩] m9W 0 (by decide)⟩

/-- Input manager for the claim-C10 witness: `(4,4)` is pending and already
loaded (entity 9, mesh 5), with a cache entry. -/
def m10W : Manager :=
  { tileSize := 128, resolution := 129, maxHeight := 100,
    gridMin := ⟨-50, -50⟩, gridMax := ⟨50, 50⟩, maxConcurrentTasks := 8,
    cacheVersion := 1,
    cache := fun c => if c = ⟨4, 4⟩ then some ⟨5, 1⟩ else none,
    tilesToLoad := [], pending := [⟨4, 4⟩],
    loaded := fun c => if c = ⟨4, 4⟩ then some ⟨9, 5⟩ else none,
    meshes := fun h => h = 5, nextHandle := 6, nextEntity := 10,
    dispatchedJobs := [] }

/-- C10: when a job completes for a coordinate that is already loaded, the
result is discarded wholesale — the cache and the existing loaded tile at that
coordinate are unchanged and the pending entry is removed; in the concrete
single-job run no entity is spawned and no mesh asset is added at all. -/
theorem claim10_completed_discarded (done : IVec2 → Bool) (m : Manager)
    (c : IVec2) (hnd : m.pending.Nodup) (hc : c ∈ m.pending)
    (hd : done c = true) (hl : (m.loaded c).isSome) :
    ((completeStep done m).cache c = m.cache c ∧
     (completeStep done m).loaded c = m.loaded c ∧
     c ∉ (completeStep done m).pending) ∧
    (completeStep (fun _ => true) m10W).nextEntity = m10W.nextEntity ∧
    (completeStep (fun _ => true) m10W).nextHandle = m10W.nextHandle :=
  ⟨completeStep_discard done m c hnd hc hd hl, by decide, by decide⟩

/-- Witness for C10 at the concrete already-loaded pending coordinate. -/
theorem claim10_completed_discarded_witness :
    m10W.pending.Nodup ∧ (⟨4, 4⟩ : IVec2) ∈ m10W.pending ∧
    ((m10W.loaded ⟨4, 4⟩).isSome = true) ∧
    (((completeStep (fun _ => true) m10W).cache ⟨4, 4⟩ = m10W.cache ⟨4, 4⟩ ∧
      (completeStep (fun _ => true) m10W).loaded ⟨4, 4⟩ = m10W.loaded ⟨4, 4⟩ ∧
      (⟨4, 4⟩ : IVec2) ∉ (completeStep (fun _ => true) m10W).pending) ∧
     (completeStep (fun _ => true) m10W).nextEntity = m10W.nextEntity ∧
     (completeStep (fun _ => true) m10W).nextHandle = m10W.nextHandle) :=
  ⟨by decide, by decide, by decide,
    claim10_completed_discarded (fun _ => true) m10W ⟨4, 4⟩
      (by decide) (by decide) (by decide) (by decide)⟩

end Thrive
